import Mathlib

/-! HAPCAN WiFi gateway: frame codec, stream parser, command responder, broadcaster.

A shallow embedding of `src/hapcan.cpp` and `src/clients.h`.

* Bytes (`uint8_t`) and words (`uint32_t`, `uint16_t`, `size_t`) are natural numbers;
  a reduction modulo `2^w` is written wherever the C++ code stores into, or computes
  in, a fixed-width type.
* A C array reached through a pointer is a function from index to byte (`Nat → Nat`);
  a store `a[i] = v` is `store a i v`.
* The three constants of `common.h` are left open: they are the fields of `Common`,
  a parameter of every definition that uses one of them.
* A function with effects returns the state it leaves together with the list of calls
  it made on its collaborators.
-/

namespace Hapcan

/-! ## Constants, memory, machine words -/

/-- The constants `HAPCAN_START_BYTE`, `HAPCAN_END_BYTE` and `MAX_CLIENTS` of `common.h`.
The two markers are assigned to and compared with `uint8_t` values, so they are bytes. -/
structure Common where
  HAPCAN_START_BYTE : Nat
  HAPCAN_END_BYTE : Nat
  MAX_CLIENTS : Nat
  start_lt : HAPCAN_START_BYTE < 256
  end_lt : HAPCAN_END_BYTE < 256

/-- The marker values of the HAPCAN serial protocol (0xAA opens a frame, 0xA5 closes it)
with a table of four client slots; used wherever a concrete configuration is needed. -/
def hapcanCommon : Common :=
  { HAPCAN_START_BYTE := 0xAA
    HAPCAN_END_BYTE := 0xA5
    MAX_CLIENTS := 4
    start_lt := by decide
    end_lt := by decide }

/-- The store `a[i] = v` into an array. -/
def store {α : Type} (a : Nat → α) (i : Nat) (v : α) : Nat → α :=
  fun j => if j = i then v else a j

/-- Conversion to `uint8_t`. -/
def u8 (x : Nat) : Nat := x % 256

/-- Conversion to `uint16_t`. -/
def u16 (x : Nat) : Nat := x % 65536

/-- Conversion to `uint32_t`. -/
def u32 (x : Nat) : Nat := x % 4294967296

/-- The bytes `a[0], ..., a[len-1]` of an array, as a list. -/
def bytesOf (a : Nat → Nat) (len : Nat) : List Nat :=
  (List.range len).map a

/-- The array holding the bytes of a list (0 beyond its end). -/
def ofBytes (l : List Nat) : Nat → Nat :=
  fun i => l.getD i 0

/-! ## The CAN message -/

/-- The fields of the driver's `twai_message_t` that the gateway reads or writes:
the 32-bit `identifier`, the `extd` flag, the `data_length_code` and the array `data`. -/
structure twai_message_t where
  identifier : Nat
  extd : Bool
  data_length_code : Nat
  data : Nat → Nat

/-! ## `encodeFrame` and `decodeFrame` (`src/hapcan.cpp`) -/

/-- The loop `for (int i = 0; i < 8; i++)` of `encodeFrame`: data bytes, then padding. -/
def encodeData (msg : twai_message_t) (outFrame : Nat → Nat) : Nat → Nat :=
  (List.range 8).foldl
    (fun f i =>
      if i < msg.data_length_code then store f (5 + i) (msg.data i)
      else store f (5 + i) 0)
    outFrame

/-- The loop `for (int i = 1; i < 13; i++) sum += outFrame[i]` on a `uint16_t` accumulator. -/
def checksumLoop (outFrame : Nat → Nat) : Nat :=
  (List.range' 1 12).foldl (fun sum i => u16 (sum + outFrame i)) 0

/-- `encodeFrame(msg, outFrame)`: the returned length and the array after the call. -/
def encodeFrame (c : Common) (msg : twai_message_t) (outFrame : Nat → Nat) :
    Nat × (Nat → Nat) :=
  let f0 := store outFrame 0 c.HAPCAN_START_BYTE
  let f1 := store f0 1 (u8 ((msg.identifier &&& 0x1fe00000) >>> 21))
  let f2 := store f1 2
    (u8 (((msg.identifier &&& 0x1e0000) >>> 13) ||| ((msg.identifier &&& 0x10000) >>> 16)))
  let f3 := store f2 3 (u8 ((msg.identifier &&& 0xff00) >>> 8))
  let f4 := store f3 4 (u8 (msg.identifier &&& 0xff))
  let f12 := encodeData msg f4
  let sum := checksumLoop f12
  let f13 := store f12 13 (u8 (sum % 256))
  let f14 := store f13 14 c.HAPCAN_END_BYTE
  (15, f14)

/-- The identifier that `decodeFrame` assembles in a `uint32_t` from bytes 1 to 4. -/
def decodeId (frame : Nat → Nat) : Nat :=
  let id := 0
  let id := id ||| u32 (frame 1 <<< 21)
  let id := id ||| u32 ((frame 2 &&& 0xF0) <<< 13)
  let id := id ||| u32 ((frame 2 &&& 0x01) <<< 16)
  let id := id ||| u32 (frame 3 <<< 8)
  let id := id ||| frame 4
  id

/-- The loop `for (int i = 0; i < 8; i++) msg.data[i] = frame[5 + i]` of `decodeFrame`. -/
def decodeData (frame : Nat → Nat) (data : Nat → Nat) : Nat → Nat :=
  (List.range 8).foldl (fun d i => store d i (frame (5 + i))) data

/-- `decodeFrame(frame, len, msg)`: the returned flag and the message after the call. -/
def decodeFrame (frame : Nat → Nat) (len : Nat) (msg : twai_message_t) :
    Bool × twai_message_t :=
  if len ≠ 15 then (false, msg)
  else
    (true,
      { msg with
        identifier := decodeId frame
        extd := true
        data_length_code := 8
        data := decodeData frame msg.data })

/-! ## `HapcanParser` (`src/clients.h`) -/

/-- The parser states, `enum State { WAIT, COLLECTING }`. -/
inductive State where
  | WAIT
  | COLLECTING
  deriving DecidableEq, Repr

/-- The data members of `HapcanParser`: `state`, the 16-byte `buffer` and `index`. -/
structure HapcanParser where
  state : State
  buffer : Nat → Nat
  index : Nat

namespace HapcanParser

/-- `reset()`: `state = WAIT; index = 0;`, the buffer is left as it is. -/
def reset (p : HapcanParser) : HapcanParser :=
  { p with state := State.WAIT, index := 0 }

/-- The constructor `HapcanParser() { reset(); }`. Nothing initialises the buffer, so the
bytes it holds at construction are an argument. -/
def init (buffer : Nat → Nat) : HapcanParser :=
  reset { state := State.WAIT, buffer := buffer, index := 0 }

/-- `parseByte(byte)`: the returned flag and the parser after the call.
`sizeof(buffer)` is 16. -/
def parseByte (c : Common) (p : HapcanParser) (byte : Nat) : Bool × HapcanParser :=
  if p.state = State.WAIT then
    if byte = c.HAPCAN_START_BYTE then
      (false, { state := State.COLLECTING, buffer := store p.buffer 0 byte, index := 1 })
    else
      (false, p)
  else if p.state = State.COLLECTING then
    if p.index < 16 then
      let p1 : HapcanParser :=
        { p with buffer := store p.buffer p.index byte, index := p.index + 1 }
      if (p1.index = 5 ∨ p1.index = 13 ∨ p1.index = 15)
          ∧ p1.buffer (p1.index - 1) = c.HAPCAN_END_BYTE then
        (true, { p1 with state := State.WAIT })
      else if p1.index > 15 then
        (false, reset p1)
      else
        (false, p1)
    else
      (false, reset p)
  else
    (false, p)

/-- `getFrame()`. -/
def getFrame (p : HapcanParser) : Nat → Nat := p.buffer

/-- `getFrameLength()`. -/
def getFrameLength (p : HapcanParser) : Nat := p.index

/-- The parser after `parseByte` has been called on each byte of a sequence in turn. -/
def feed (c : Common) (p : HapcanParser) (bytes : List Nat) : HapcanParser :=
  bytes.foldl (fun q b => (parseByte c q b).2) p

/-- The value returned by each of the calls of `parseByte` on a sequence of bytes. -/
def returns (c : Common) : HapcanParser → List Nat → List Bool
  | _, [] => []
  | p, b :: bs => (parseByte c p b).1 :: returns c (parseByte c p b).2 bs

/-- What a parser in `COLLECTING` has seen: after the input `s`, fed to a parser that was
in `WAIT`, the input ends with a start marker, received in `WAIT`, and the `index - 1`
bytes after it; the buffer holds exactly these `index ≤ 15` bytes. -/
def Collected (c : Common) (p0 : HapcanParser) (s : List Nat) (p : HapcanParser) : Prop :=
  p.state = State.COLLECTING →
    ∃ pre mid, s = pre ++ c.HAPCAN_START_BYTE :: mid ∧
      (feed c p0 pre).state = State.WAIT ∧
      mid.length + 1 = p.index ∧ p.index ≤ 15 ∧
      bytesOf p.buffer p.index = c.HAPCAN_START_BYTE :: mid

/-- An input in which a second start marker arrives while the parser is collecting:
the end marker is 4 bytes after the second start marker, 5 after the first. -/
def nestedStart : List Nat := [0xAA, 0xAA, 0, 0, 0, 0xA5]

/-- The first call of `parseByte` that returns true on the input `s`, fed to the parser
`p`, is the call on the byte at position `n` (counted from 0). -/
def firstTrueAt (c : Common) (p : HapcanParser) (s : List Nat) (n : Nat) : Prop :=
  returns c p (s.take (n + 1)) = List.replicate n false ++ [true]

/-- A wire frame that the parser can delimit: 5, 13 or 15 bytes, the start marker first
and the end marker last, no end marker at offset 4 unless the frame has 5 bytes, and none
at offset 12 when it has 15. -/
def WireFrame (c : Common) (f : List Nat) : Prop :=
  (f.length = 5 ∨ f.length = 13 ∨ f.length = 15) ∧
  f[0]? = some c.HAPCAN_START_BYTE ∧
  f[f.length - 1]? = some c.HAPCAN_END_BYTE ∧
  (f.length ≠ 5 → f[4]? ≠ some c.HAPCAN_END_BYTE) ∧
  (f.length = 15 → f[12]? ≠ some c.HAPCAN_END_BYTE)

instance (c : Common) (f : List Nat) : Decidable (WireFrame c f) := by
  unfold WireFrame
  infer_instance

/-- A call on a parser: `parseByte(byte)` or `reset()`. -/
inductive Op where
  | parseByte (byte : Nat)
  | reset

/-- The parser after one call. -/
def apply (c : Common) (p : HapcanParser) : Op → HapcanParser
  | Op.parseByte byte => (HapcanParser.parseByte c p byte).2
  | Op.reset => HapcanParser.reset p

/-- The parser after a sequence of calls. -/
def run (c : Common) (p : HapcanParser) (ops : List Op) : HapcanParser :=
  ops.foldl (apply c) p

end HapcanParser

/-! ## The client table, `broadcastFrame` and `processFrame` (`src/hapcan.cpp`)

The calls a function makes on its collaborators are returned as a list, oldest first,
next to the state it leaves. -/

/-- The behaviour of the library class `WiFiClient`, for a transport state of type `W`:
what `connected()` reports, and the state and byte count that `write(data, len)` gives. -/
structure Transport (W : Type) where
  connected : W → Bool
  write : W → List Nat → W × Nat

/-- `struct SocketConnection`: the transport, the parser and the `active` flag. -/
structure SocketConnection (W : Type) where
  client : W
  parser : HapcanParser
  active : Bool

/-- The lines passed to `debugPrintln`. -/
inductive DebugLine where
  | frameDump (frame : List Nat)
  | transmitFailed (err : Nat)
  | hardwareType
  | firmwareType
  | description
  | supplyVoltage
  | unknownCommand
  | unknownLength (len : Nat)

/-- A call made by `processFrame` or `broadcastFrame`, with its arguments. -/
inductive Call where
  | debugPrintln (line : DebugLine)
  | addHAPCANDisplayMessage (tcpToCan : Bool) (frame : List Nat)
  | twai_transmit (msg : twai_message_t)
  | broadcastFrame (data : List Nat)
  | write (slot : Nat) (data : List Nat)

/-- The frames passed to `broadcastFrame`, in call order. -/
def broadcasts (calls : List Call) : List (List Nat) :=
  calls.filterMap fun
    | Call.broadcastFrame data => some data
    | _ => none

/-- The messages passed to `twai_transmit`, in call order. -/
def transmits (calls : List Call) : List twai_message_t :=
  calls.filterMap fun
    | Call.twai_transmit msg => some msg
    | _ => none

/-- The slot and bytes of each `client.write`, in call order. -/
def writes (calls : List Call) : List (Nat × List Nat) :=
  calls.filterMap fun
    | Call.write slot data => some (slot, data)
    | _ => none

/-- The test of `broadcastFrame` on slot `i`: `active` is set and `connected()` holds. -/
def live {W : Type} (T : Transport W) (clients : Nat → SocketConnection W) (i : Nat) : Bool :=
  (clients i).active && T.connected (clients i).client

/-- The calls `client.write(data, len)` on the given slots, in order. -/
def writeCalls (slots : List Nat) (data : List Nat) : List Call :=
  slots.map (fun i => Call.write i data)

/-- The body of the loop of `broadcastFrame` for slot `i`. -/
def broadcastSlot {W : Type} (T : Transport W) (data : Nat → Nat) (len : Nat)
    (st : (Nat → SocketConnection W) × List Call) (i : Nat) :
    (Nat → SocketConnection W) × List Call :=
  if (st.1 i).active && T.connected (st.1 i).client then
    (store st.1 i
        { st.1 i with client := (T.write (st.1 i).client (bytesOf data len)).1 },
      st.2 ++ [Call.write i (bytesOf data len)])
  else st

/-- `broadcastFrame(data, len)` on the table `clients`: the table after the call and the
calls made, the first entry recording the call of `broadcastFrame` itself. -/
def broadcastFrame {W : Type} (c : Common) (T : Transport W) (data : Nat → Nat) (len : Nat)
    (clients : Nat → SocketConnection W) : (Nat → SocketConnection W) × List Call :=
  (List.range c.MAX_CLIENTS).foldl (broadcastSlot T data len)
    (clients, [Call.broadcastFrame (bytesOf data len)])

/-- The driver's `ESP_OK`. -/
def ESP_OK : Nat := 0

/-- The reply to the hardware type request (`cmd == 0x40`). -/
def hardwareTypeResponse (c : Common) : List Nat :=
  [c.HAPCAN_START_BYTE, 0x10, 0x41, 0x30, 0x00, 0x03, 0xFF,
   0x00, 0x00, 0x07, 0xA0, 0x2A, c.HAPCAN_END_BYTE]

/-- The reply to the firmware type request (`cmd == 0x60`). -/
def firmwareTypeResponse (c : Common) : List Nat :=
  [c.HAPCAN_START_BYTE, 0x10, 0x61, 0x30, 0x00, 0x03, 0x65,
   0x00, 0x00, 0x03, 0x04, 0x10, c.HAPCAN_END_BYTE]

/-- The first reply to the description request (`cmd == 0xE0`). -/
def descriptionResponse1 (c : Common) : List Nat :=
  [c.HAPCAN_START_BYTE, 0x10, 0xE1, 0x52, 0x53, 0x32, 0x33,
   0x32, 0x43, 0x20, 0x49, 0xD9, c.HAPCAN_END_BYTE]

/-- The second reply to the description request (`cmd == 0xE0`). -/
def descriptionResponse2 (c : Common) : List Nat :=
  [c.HAPCAN_START_BYTE, 0x10, 0xE1, 0x6E, 0x74, 0x65, 0x72,
   0x66, 0x61, 0x63, 0x65, 0x39, c.HAPCAN_END_BYTE]

/-- The reply to the supply voltage request (`cmd == 0xC0`). -/
def supplyVoltageResponse (c : Common) : List Nat :=
  [c.HAPCAN_START_BYTE, 0x10, 0xC1, 0xC5, 0x40, 0xA7, 0x70,
   0xFF, 0xFF, 0xFF, 0xFF, 0xE9, c.HAPCAN_END_BYTE]

/-- `processFrame(frame, len)` on the table `clients`: the table after the call and the
calls made. `tx_msg` is the local message as it is before `decodeFrame` fills it (it is
not initialised), `err` is what `twai_transmit` returns. Each `response` array has 13
entries, so `sizeof(response)` is 13. -/
def processFrame {W : Type} (c : Common) (T : Transport W) (frame : Nat → Nat) (len : Nat)
    (tx_msg : twai_message_t) (err : Nat) (clients : Nat → SocketConnection W) :
    (Nat → SocketConnection W) × List Call :=
  let dump := [Call.debugPrintln (DebugLine.frameDump (bytesOf frame len))]
  if len = 15 then
    let shown := dump ++ [Call.addHAPCANDisplayMessage true (bytesOf frame len)]
    let r := decodeFrame frame len tx_msg
    if r.1 then
      let sent := shown ++ [Call.twai_transmit r.2]
      if err ≠ ESP_OK then
        (clients, sent ++ [Call.debugPrintln (DebugLine.transmitFailed err)])
      else (clients, sent)
    else (clients, shown)
  else if len = 5 ∧ frame 1 = 0x10 then
    let cmd := frame 2
    if cmd = 0x40 then
      let r := broadcastFrame c T (ofBytes (hardwareTypeResponse c)) 13 clients
      (r.1, dump ++ r.2 ++ [Call.debugPrintln DebugLine.hardwareType])
    else if cmd = 0x60 then
      let r := broadcastFrame c T (ofBytes (firmwareTypeResponse c)) 13 clients
      (r.1, dump ++ r.2 ++ [Call.debugPrintln DebugLine.firmwareType])
    else if cmd = 0xE0 then
      let r1 := broadcastFrame c T (ofBytes (descriptionResponse1 c)) 13 clients
      let r2 := broadcastFrame c T (ofBytes (descriptionResponse2 c)) 13 r1.1
      (r2.1, dump ++ r1.2 ++ r2.2 ++ [Call.debugPrintln DebugLine.description])
    else if cmd = 0xC0 then
      let r := broadcastFrame c T (ofBytes (supplyVoltageResponse c)) 13 clients
      (r.1, dump ++ r.2 ++ [Call.debugPrintln DebugLine.supplyVoltage])
    else
      (clients, dump ++ [Call.debugPrintln DebugLine.unknownCommand])
  else
    (clients, dump ++ [Call.debugPrintln (DebugLine.unknownLength len)])

/-- The device name carried by the two description replies. -/
def deviceName : String := "RS232C Interface"

/-- A transport state for concrete checks: whether it is connected, and the blocks
written to it so far. -/
structure SampleClient where
  up : Bool
  sent : List (List Nat)

/-- The transport of `SampleClient`: a write is appended to `sent` and returns the
number of bytes taken, which is 0 when the client is not connected. -/
def sampleTransport : Transport SampleClient :=
  { connected := fun w => w.up
    write := fun w data =>
      ({ w with sent := w.sent ++ [data] }, if w.up then data.length else 0) }

/-- A table whose slots 0 and 2 are active and connected; slot 1 is active but not
connected, slot 3 is connected but not active. -/
def sampleClients : Nat → SocketConnection SampleClient :=
  fun i =>
    { client := { up := i = 0 ∨ i = 2 ∨ i = 3, sent := [] }
      parser := HapcanParser.init (fun _ => 0)
      active := i = 0 ∨ i = 1 ∨ i = 2 }

/-- A CAN message with a 29-bit identifier and three data bytes, for concrete checks. -/
def sampleMsg : twai_message_t :=
  { identifier := 0x1234567
    extd := true
    data_length_code := 3
    data := ofBytes [0x11, 0x22, 0x33] }

/-- A 15-byte frame for concrete checks: markers in place, bits 1..3 of byte 2 set, and
a byte 13 that is not the checksum. -/
def sampleFrame : Nat → Nat :=
  ofBytes [0xAA, 0x12, 0x3F, 0x45, 0x67, 1, 2, 3, 4, 5, 6, 7, 8, 0x00, 0xA5]

/-- The shape of a reply to the request with the given selector: 13 bytes, the start
marker first and the end marker last, byte 1 equal to 0x10, byte 2 equal to the selector
plus 1, and byte 11 equal to the sum of bytes 1 to 10 modulo 256. -/
def CannedReply (c : Common) (selector : Nat) (r : List Nat) : Prop :=
  r.length = 13 ∧
  r[0]? = some c.HAPCAN_START_BYTE ∧
  r[12]? = some c.HAPCAN_END_BYTE ∧
  r[1]? = some 0x10 ∧
  r[2]? = some (selector + 1) ∧
  r[11]? = some (((r.drop 1).take 10).sum % 256)

/-! ## Codec lemmas -/

theorem store_apply {α : Type} (a : Nat → α) (i : Nat) (v : α) (j : Nat) :
    store a i v j = if j = i then v else a j := rfl

/-- Masking with `m` one-bits that start at bit `k` keeps the digits `k .. k+m-1`. -/
theorem and_mask (x m k : Nat) :
    x &&& ((2 ^ m - 1) <<< k) = x / 2 ^ k % 2 ^ m * 2 ^ k := by
  apply Nat.eq_of_testBit_eq
  intro i
  rw [← Nat.shiftLeft_eq, ← Nat.shiftRight_eq_div_pow]
  simp only [Nat.testBit_and, Nat.testBit_shiftLeft, Nat.testBit_two_pow_sub_one,
    Nat.testBit_mod_two_pow, Nat.testBit_shiftRight]
  by_cases h : k ≤ i
  · have e : k + (i - k) = i := by omega
    simp [h, e, Bool.and_comm]
  · simp [h]

/-- A bitwise or of a multiple of `2 ^ i` with a number below `2 ^ i` is their sum. -/
theorem or_eq_add (i a b : Nat) (ha : 2 ^ i ∣ a) (hb : b < 2 ^ i) : a ||| b = a + b := by
  obtain ⟨q, rfl⟩ := ha
  exact (Nat.mul_add_lt_is_or hb q).symm

/-- The four identifier bytes written by `encodeFrame`, as digits of the identifier. -/
theorem encode_id_bytes (x : Nat) :
    u8 ((x &&& 0x1fe00000) >>> 21) = x / 2097152 % 256 ∧
    u8 (((x &&& 0x1e0000) >>> 13) ||| ((x &&& 0x10000) >>> 16))
      = x / 131072 % 16 * 16 + x / 65536 % 2 ∧
    u8 ((x &&& 0xff00) >>> 8) = x / 256 % 256 ∧
    u8 (x &&& 0xff) = x % 256 := by
  have m1 : x &&& 0x1fe00000 = x / 2097152 % 256 * 2097152 := and_mask x 8 21
  have m2 : x &&& 0x1e0000 = x / 131072 % 16 * 131072 := and_mask x 4 17
  have m3 : x &&& 0x10000 = x / 65536 % 2 * 65536 := and_mask x 1 16
  have m4 : x &&& 0xff00 = x / 256 % 256 * 256 := and_mask x 8 8
  have m5 : x &&& 0xff = x / 1 % 256 * 1 := and_mask x 8 0
  have o := or_eq_add 4 (x / 131072 % 16 * 131072 / 8192) (x / 65536 % 2 * 65536 / 65536)
    (by omega) (by omega)
  simp only [u8, Nat.shiftRight_eq_div_pow]
  norm_num
  rw [m1, m2, m3, m4, m5, o]
  omega

/-- The identifier assembled by `decodeFrame` from four bytes, in arithmetic form. -/
theorem decodeId_eq (frame : Nat → Nat) (h1 : frame 1 < 256)
    (h3 : frame 3 < 256) (h4 : frame 4 < 256) :
    decodeId frame = frame 1 * 2097152 + frame 2 / 16 % 16 * 131072
      + frame 2 % 2 * 65536 + frame 3 * 256 + frame 4 := by
  have m1 : frame 2 &&& 0xF0 = frame 2 / 16 % 16 * 16 := and_mask (frame 2) 4 4
  have m2 : frame 2 &&& 0x01 = frame 2 / 1 % 2 * 1 := and_mask (frame 2) 1 0
  simp only [decodeId, u32, Nat.shiftLeft_eq, Nat.zero_or]
  rw [m1, m2]
  have a1 : frame 1 * 2 ^ 21 % 4294967296 = frame 1 * 2097152 := by omega
  have a2 : frame 2 / 16 % 16 * 16 * 2 ^ 13 % 4294967296 = frame 2 / 16 % 16 * 131072 := by
    omega
  have a3 : frame 2 / 1 % 2 * 1 * 2 ^ 16 % 4294967296 = frame 2 % 2 * 65536 := by omega
  have a4 : frame 3 * 2 ^ 8 % 4294967296 = frame 3 * 256 := by omega
  rw [a1, a2, a3, a4]
  rw [or_eq_add 21 _ (frame 2 / 16 % 16 * 131072) (by omega) (by omega)]
  rw [or_eq_add 17 _ (frame 2 % 2 * 65536) (by omega) (by omega)]
  rw [or_eq_add 16 _ (frame 3 * 256) (by omega) (by omega)]
  rw [or_eq_add 8 _ (frame 4) (by omega) (by omega)]

/-- The data loop of `encodeFrame` run for `n` rounds. -/
theorem encodeData_loop (msg : twai_message_t) (n : Nat) (f : Nat → Nat) (j : Nat) :
    (List.range n).foldl
      (fun f i =>
        if i < msg.data_length_code then store f (5 + i) (msg.data i)
        else store f (5 + i) 0) f j
      = if 5 ≤ j ∧ j < 5 + n then
          (if j - 5 < msg.data_length_code then msg.data (j - 5) else 0)
        else f j := by
  induction n with
  | zero =>
    have h : ¬ (5 ≤ j ∧ j < 5 + 0) := by omega
    simp [h]
  | succ n ih =>
    rw [List.range_succ, List.foldl_append]
    simp only [List.foldl_cons, List.foldl_nil]
    by_cases hj : j = 5 + n
    · have e : j - 5 = n := by omega
      have h : 5 ≤ j ∧ j < 5 + (n + 1) := by omega
      by_cases hd : n < msg.data_length_code <;> simp [hd, store, hj]
    · have hs : ∀ (g : Nat → Nat) (v : Nat), store g (5 + n) v j = g j := by
        intro g v; simp [store, hj]
      have h : (5 ≤ j ∧ j < 5 + (n + 1)) ↔ (5 ≤ j ∧ j < 5 + n) := by omega
      by_cases hd : n < msg.data_length_code <;> simp only [hd, if_true, if_false, hs, ih, h]

/-- What `encodeData` leaves at each index. -/
theorem encodeData_apply (msg : twai_message_t) (f : Nat → Nat) (j : Nat) :
    encodeData msg f j
      = if 5 ≤ j ∧ j < 13 then
          (if j - 5 < msg.data_length_code then msg.data (j - 5) else 0)
        else f j :=
  encodeData_loop msg 8 f j

/-- The data loop of `decodeFrame` run for `n` rounds. -/
theorem decodeData_loop (frame : Nat → Nat) (n : Nat) (d : Nat → Nat) (j : Nat) :
    (List.range n).foldl (fun d i => store d i (frame (5 + i))) d j
      = if j < n then frame (5 + j) else d j := by
  induction n with
  | zero => simp
  | succ n ih =>
    rw [List.range_succ, List.foldl_append]
    simp only [List.foldl_cons, List.foldl_nil, store]
    by_cases hj : j = n
    · simp [hj]
    · have h : j < n + 1 ↔ j < n := by omega
      simp only [hj, if_false, ih, h]

/-- What `decodeData` leaves at each index. -/
theorem decodeData_apply (frame : Nat → Nat) (d : Nat → Nat) (j : Nat) :
    decodeData frame d j = if j < 8 then frame (5 + j) else d j :=
  decodeData_loop frame 8 d j

/-- Every index of the frame after `encodeFrame`. -/
theorem encodeFrame_apply (c : Common) (msg : twai_message_t) (outFrame : Nat → Nat)
    (j : Nat) :
    (encodeFrame c msg outFrame).2 j =
      if j = 14 then c.HAPCAN_END_BYTE
      else if j = 13 then
        u8 (checksumLoop (encodeData msg
          (store (store (store (store (store outFrame 0 c.HAPCAN_START_BYTE)
            1 (u8 ((msg.identifier &&& 0x1fe00000) >>> 21)))
            2 (u8 (((msg.identifier &&& 0x1e0000) >>> 13)
                ||| ((msg.identifier &&& 0x10000) >>> 16))))
            3 (u8 ((msg.identifier &&& 0xff00) >>> 8)))
            4 (u8 (msg.identifier &&& 0xff)))) % 256)
      else if 5 ≤ j ∧ j < 13 then
        (if j - 5 < msg.data_length_code then msg.data (j - 5) else 0)
      else if j = 4 then u8 (msg.identifier &&& 0xff)
      else if j = 3 then u8 ((msg.identifier &&& 0xff00) >>> 8)
      else if j = 2 then
        u8 (((msg.identifier &&& 0x1e0000) >>> 13) ||| ((msg.identifier &&& 0x10000) >>> 16))
      else if j = 1 then u8 ((msg.identifier &&& 0x1fe00000) >>> 21)
      else if j = 0 then c.HAPCAN_START_BYTE
      else outFrame j := by
  simp only [encodeFrame, store_apply, encodeData_apply]

/-! ## Claims about the codec -/

/-- C1: for every CAN message `M` whose identifier fits in 29 bits and whose data length
code is at most 8, `decodeFrame` applied to the frame written by `encodeFrame`, with the
length `encodeFrame` returned (15), succeeds; the decoded identifier is `M.identifier`,
the decoded data length code is 8, the first `M.data_length_code` data bytes are those of
`M` and the remaining ones, up to index 7, are 0. -/
theorem decode_encode_roundtrip (c : Common) (M : twai_message_t) (outFrame : Nat → Nat)
    (msg : twai_message_t) (hid : M.identifier < 2 ^ 29) (hdlc : M.data_length_code ≤ 8) :
    (decodeFrame (encodeFrame c M outFrame).2 (encodeFrame c M outFrame).1 msg).1 = true ∧
    (decodeFrame (encodeFrame c M outFrame).2 (encodeFrame c M outFrame).1 msg).2.identifier
      = M.identifier ∧
    (decodeFrame (encodeFrame c M outFrame).2
      (encodeFrame c M outFrame).1 msg).2.data_length_code = 8 ∧
    (∀ i, i < M.data_length_code →
      (decodeFrame (encodeFrame c M outFrame).2 (encodeFrame c M outFrame).1 msg).2.data i
        = M.data i) ∧
    (∀ i, M.data_length_code ≤ i → i < 8 →
      (decodeFrame (encodeFrame c M outFrame).2 (encodeFrame c M outFrame).1 msg).2.data i
        = 0) := by
  have hlen : (encodeFrame c M outFrame).1 = 15 := rfl
  obtain ⟨b1, b2, b3, b4⟩ := encode_id_bytes M.identifier
  have e1 : (encodeFrame c M outFrame).2 1 = M.identifier / 2097152 % 256 := by
    rw [encodeFrame_apply]; simpa using b1
  have e2 : (encodeFrame c M outFrame).2 2
      = M.identifier / 131072 % 16 * 16 + M.identifier / 65536 % 2 := by
    rw [encodeFrame_apply]; simpa using b2
  have e3 : (encodeFrame c M outFrame).2 3 = M.identifier / 256 % 256 := by
    rw [encodeFrame_apply]; simpa using b3
  have e4 : (encodeFrame c M outFrame).2 4 = M.identifier % 256 := by
    rw [encodeFrame_apply]; simpa using b4
  have hdec := decodeId_eq (encodeFrame c M outFrame).2 (by omega) (by omega) (by omega)
  rw [hlen]
  simp only [decodeFrame, ne_eq, not_true_eq_false, if_false, true_and]
  refine ⟨?_, ?_, ?_⟩
  · rw [hdec, e1, e2, e3, e4]
    have h29 : (2 : Nat) ^ 29 = 536870912 := by norm_num
    omega
  · intro i hi
    have h8 : i < 8 := by omega
    have h5 : 5 ≤ 5 + i ∧ 5 + i < 13 := by omega
    have hne : 5 + i ≠ 14 ∧ 5 + i ≠ 13 := by omega
    have hsub : 5 + i - 5 = i := by omega
    rw [decodeData_apply, if_pos h8, encodeFrame_apply]
    simp [h5, hne, hsub, hi]
  · intro i hi h8
    have h5 : 5 ≤ 5 + i ∧ 5 + i < 13 := by omega
    have hne : 5 + i ≠ 14 ∧ 5 + i ≠ 13 := by omega
    have hsub : 5 + i - 5 = i := by omega
    have hnot : ¬ i < M.data_length_code := by omega
    rw [decodeData_apply, if_pos h8, encodeFrame_apply]
    simp [h5, hne, hsub, hnot]

/-- Instance of C1 at `sampleMsg`: both hypotheses hold and the identifier survives. -/
theorem decode_encode_roundtrip_witness :
    sampleMsg.identifier < 2 ^ 29 ∧ sampleMsg.data_length_code ≤ 8 ∧
    (decodeFrame (encodeFrame hapcanCommon sampleMsg (fun _ => 0)).2
      (encodeFrame hapcanCommon sampleMsg (fun _ => 0)).1 sampleMsg).2.identifier
      = 0x1234567 :=
  ⟨by decide, by decide,
    (decode_encode_roundtrip hapcanCommon sampleMsg (fun _ => 0) sampleMsg
      (by decide) (by decide)).2.1⟩

/-- A `uint16_t` accumulator summing `k ≤ 12` bytes never wraps. -/
theorem checksum_partial (g : Nat → Nat) (hg : ∀ i, 1 ≤ i → i ≤ 12 → g i ≤ 255) (k : Nat)
    (hk : k ≤ 12) :
    (List.range' 1 k).foldl (fun sum i => u16 (sum + g i)) 0
      = ((List.range' 1 k).map g).sum ∧
    ((List.range' 1 k).map g).sum ≤ k * 255 := by
  induction k with
  | zero => simp
  | succ k ih =>
    obtain ⟨h1, h2⟩ := ih (by omega)
    have hb := hg (1 + k) (by omega) (by omega)
    rw [List.range'_1_concat, List.foldl_append, List.map_append, List.sum_append, h1]
    simp only [List.foldl_cons, List.foldl_nil, List.map_cons, List.map_nil, List.sum_cons,
      List.sum_nil, u16]
    constructor <;> omega

/-- Bytes 1 to 12 of an encoded frame are at most 255 when the message data are bytes. -/
theorem encodeFrame_byte_le (c : Common) (M : twai_message_t) (outFrame : Nat → Nat)
    (hdata : ∀ i, i < 8 → M.data i < 256) (i : Nat) (h1 : 1 ≤ i) (h12 : i ≤ 12) :
    (encodeFrame c M outFrame).2 i ≤ 255 := by
  rw [encodeFrame_apply]
  have hd := hdata (i - 5)
  simp only [u8]
  split_ifs <;> omega

/-- The checksum loop only reads the indices it visits. -/
theorem checksum_foldl_congr (g h : Nat → Nat) (l : List Nat) (a : Nat)
    (hgh : ∀ i, i ∈ l → g i = h i) :
    l.foldl (fun sum i => u16 (sum + g i)) a = l.foldl (fun sum i => u16 (sum + h i)) a := by
  induction l generalizing a with
  | nil => rfl
  | cons x l ih =>
    simp only [List.foldl_cons]
    rw [hgh x (List.mem_cons_self x l)]
    exact ih _ (fun i hi => hgh i (List.mem_cons_of_mem x hi))

/-- Byte 13 of an encoded frame is the checksum accumulator, run over a frame that agrees
with the final one everywhere but at indices 13 and 14. -/
theorem encodeFrame_checksum_byte (c : Common) (M : twai_message_t) (outFrame : Nat → Nat) :
    ∃ f12 : Nat → Nat,
      (∀ i, i ≠ 13 → i ≠ 14 → (encodeFrame c M outFrame).2 i = f12 i) ∧
      (encodeFrame c M outFrame).2 13 = u8 (checksumLoop f12 % 256) := by
  refine ⟨_, ?_, rfl⟩
  intro i h13 h14
  simp only [encodeFrame, store_apply, h13, h14, if_false]

/-- C2: in the frame written by `encodeFrame`, for any identifier and data length code and
any data bytes, byte 13 is the sum of bytes 1 to 12 of that frame modulo 256; every partial
sum of those bytes is at most 255 per byte (so at most 12*255 in all), and the 16-bit
accumulator holds the exact sum after every round, so it never wraps. -/
theorem encode_checksum (c : Common) (M : twai_message_t) (outFrame : Nat → Nat)
    (hdata : ∀ i, i < 8 → M.data i < 256) :
    (encodeFrame c M outFrame).2 13
      = ((List.range' 1 12).map (encodeFrame c M outFrame).2).sum % 256 ∧
    ((List.range' 1 12).map (encodeFrame c M outFrame).2).sum ≤ 12 * 255 ∧
    (∀ k, k ≤ 12 →
      (List.range' 1 k).foldl (fun sum i => u16 (sum + (encodeFrame c M outFrame).2 i)) 0
        = ((List.range' 1 k).map (encodeFrame c M outFrame).2).sum ∧
      ((List.range' 1 k).map (encodeFrame c M outFrame).2).sum ≤ k * 255) := by
  have hp := checksum_partial (encodeFrame c M outFrame).2
    (encodeFrame_byte_le c M outFrame hdata)
  refine ⟨?_, (hp 12 (by omega)).2, hp⟩
  obtain ⟨f12, hagree, h13⟩ := encodeFrame_checksum_byte c M outFrame
  have hloop : checksumLoop f12
      = ((List.range' 1 12).map (encodeFrame c M outFrame).2).sum := by
    rw [← (hp 12 (by omega)).1]
    refine checksum_foldl_congr _ _ _ _ (fun i hi => ?_)
    rw [List.mem_range'_1] at hi
    exact (hagree i (by omega) (by omega)).symm
  rw [h13, hloop, u8]
  omega

/-- Instance of C2 at `sampleMsg`, whose data are bytes: byte 13 of its frame is 0x2C,
the sum 0x09 + 0x11 + 0x45 + 0x67 + 0x11 + 0x22 + 0x33 = 300 of bytes 1 to 12 modulo 256. -/
theorem encode_checksum_witness :
    (∀ i, i < 8 → sampleMsg.data i < 256) ∧
    (encodeFrame hapcanCommon sampleMsg (fun _ => 0)).2 13 = 0x2C ∧
    (encodeFrame hapcanCommon sampleMsg (fun _ => 0)).2 13
      = ((List.range' 1 12).map (encodeFrame hapcanCommon sampleMsg (fun _ => 0)).2).sum
        % 256 :=
  ⟨by decide, by decide,
    (encode_checksum hapcanCommon sampleMsg (fun _ => 0) (by decide)).1⟩

/-! ## Parser lemmas -/

namespace HapcanParser

theorem feed_nil (c : Common) (p : HapcanParser) : feed c p [] = p := rfl

theorem feed_cons (c : Common) (p : HapcanParser) (b : Nat) (bs : List Nat) :
    feed c p (b :: bs) = feed c (parseByte c p b).2 bs := rfl

theorem feed_append (c : Common) (p : HapcanParser) (s t : List Nat) :
    feed c p (s ++ t) = feed c (feed c p s) t := by
  simp [feed, List.foldl_append]

theorem returns_append (c : Common) (p : HapcanParser) (s t : List Nat) :
    returns c p (s ++ t) = returns c p s ++ returns c (feed c p s) t := by
  induction s generalizing p with
  | nil => rfl
  | cons b s ih => simp [returns, feed_cons, ih]

theorem returns_length (c : Common) (p : HapcanParser) (s : List Nat) :
    (returns c p s).length = s.length := by
  induction s generalizing p with
  | nil => rfl
  | cons b s ih => simp [returns, ih]

/-- Some call returns true exactly when the input splits at a byte on which the call,
made in the state reached after the bytes before it, returns true. -/
theorem mem_returns_iff (c : Common) (p : HapcanParser) (s : List Nat) :
    true ∈ returns c p s ↔
      ∃ s1 b s2, s = s1 ++ b :: s2 ∧ (parseByte c (feed c p s1) b).1 = true := by
  constructor
  · intro h
    induction s generalizing p with
    | nil => simp [returns] at h
    | cons b s ih =>
      simp only [returns, List.mem_cons] at h
      rcases h with h | h
      · exact ⟨[], b, s, rfl, h.symm⟩
      · obtain ⟨s1, b1, s2, hs, hr⟩ := ih _ h
        exact ⟨b :: s1, b1, s2, by simp [hs], by simpa [feed_cons] using hr⟩
  · rintro ⟨s1, b, s2, rfl, hr⟩
    rw [returns_append]
    simp [returns, hr]

/-- The step from `WAIT`. -/
theorem parseByte_wait (c : Common) (p : HapcanParser) (b : Nat)
    (hw : p.state = State.WAIT) :
    parseByte c p b =
      if b = c.HAPCAN_START_BYTE then
        (false, { state := State.COLLECTING, buffer := store p.buffer 0 b, index := 1 })
      else (false, p) := by
  simp [parseByte, hw]

/-- In `WAIT` a byte other than the start marker changes nothing. -/
theorem parseByte_wait_other (c : Common) (p : HapcanParser) (b : Nat)
    (hw : p.state = State.WAIT) (hb : b ≠ c.HAPCAN_START_BYTE) :
    parseByte c p b = (false, p) := by
  rw [parseByte_wait c p b hw, if_neg hb]

/-- In `WAIT` the start marker is buffered at index 0 and collection begins. -/
theorem parseByte_wait_start (c : Common) (p : HapcanParser)
    (hw : p.state = State.WAIT) :
    parseByte c p c.HAPCAN_START_BYTE
      = (false, { state := State.COLLECTING,
                  buffer := store p.buffer 0 c.HAPCAN_START_BYTE, index := 1 }) := by
  rw [parseByte_wait c p _ hw, if_pos rfl]

/-- The step from `COLLECTING` with room in the buffer. -/
theorem parseByte_collecting (c : Common) (p : HapcanParser) (b : Nat)
    (hs : p.state = State.COLLECTING) (h16 : p.index < 16) :
    parseByte c p b =
      if (p.index = 4 ∨ p.index = 12 ∨ p.index = 14) ∧ b = c.HAPCAN_END_BYTE then
        (true, { state := State.WAIT, buffer := store p.buffer p.index b,
                 index := p.index + 1 })
      else if p.index = 15 then
        (false, { state := State.WAIT, buffer := store p.buffer p.index b, index := 0 })
      else
        (false, { state := State.COLLECTING, buffer := store p.buffer p.index b,
                  index := p.index + 1 }) := by
  have e1 : (p.index + 1 = 5 ∨ p.index + 1 = 13 ∨ p.index + 1 = 15)
      ↔ (p.index = 4 ∨ p.index = 12 ∨ p.index = 14) := by omega
  have e2 : p.index + 1 > 15 ↔ p.index = 15 := by omega
  simp only [parseByte, hs, h16, if_true, e1, e2, store_apply, Nat.add_sub_cancel, reset]
  simp

/-- The step from `COLLECTING` with a full buffer. -/
theorem parseByte_full (c : Common) (p : HapcanParser) (b : Nat)
    (hs : p.state = State.COLLECTING) (h16 : ¬ p.index < 16) :
    parseByte c p b = (false, { state := State.WAIT, buffer := p.buffer, index := 0 }) := by
  simp [parseByte, hs, h16, reset]

/-- A call returns true only in `COLLECTING`, on the end marker, at index 4, 12 or 14;
the parser is then in `WAIT` with the byte stored and the index advanced. -/
theorem parseByte_true (c : Common) (p : HapcanParser) (b : Nat)
    (h : (parseByte c p b).1 = true) :
    p.state = State.COLLECTING ∧ (p.index = 4 ∨ p.index = 12 ∨ p.index = 14) ∧
    b = c.HAPCAN_END_BYTE ∧
    (parseByte c p b).2
      = { state := State.WAIT, buffer := store p.buffer p.index b, index := p.index + 1 } := by
  cases hst : p.state with
  | WAIT =>
    rw [parseByte_wait c p b hst] at h
    split_ifs at h
  | COLLECTING =>
    by_cases h16 : p.index < 16
    · rw [parseByte_collecting c p b hst h16] at h ⊢
      split_ifs at h ⊢ with h1
      exact ⟨rfl, h1.1, h1.2, rfl⟩
    · rw [parseByte_full c p b hst h16] at h
      simp at h

/-- In `COLLECTING` with index 4, 12 or 14 the end marker completes a frame. -/
theorem parseByte_hit (c : Common) (p : HapcanParser)
    (hs : p.state = State.COLLECTING) (hi : p.index = 4 ∨ p.index = 12 ∨ p.index = 14) :
    (parseByte c p c.HAPCAN_END_BYTE).1 = true := by
  rw [parseByte_collecting c p _ hs (by omega)]
  simp [hi]

/-- In `COLLECTING` below index 15, a call that returns false buffers the byte and
stays in `COLLECTING`. -/
theorem parseByte_collect (c : Common) (p : HapcanParser) (b : Nat)
    (hs : p.state = State.COLLECTING) (hi : p.index < 15)
    (h : (parseByte c p b).1 = false) :
    (parseByte c p b).2
      = { state := State.COLLECTING, buffer := store p.buffer p.index b,
          index := p.index + 1 } := by
  have h15 : p.index ≠ 15 := by omega
  rw [parseByte_collecting c p b hs (by omega)] at h ⊢
  split_ifs at h ⊢ with h1
  rfl

theorem bytesOf_length (a : Nat → Nat) (n : Nat) : (bytesOf a n).length = n := by
  simp [bytesOf]

theorem bytesOf_succ (a : Nat → Nat) (n : Nat) : bytesOf a (n + 1) = bytesOf a n ++ [a n] := by
  simp [bytesOf, List.range_succ]

/-- A store at or beyond index `n` leaves the first `n` bytes as they were. -/
theorem bytesOf_store_ge (a : Nat → Nat) (i v n : Nat) (h : n ≤ i) :
    bytesOf (store a i v) n = bytesOf a n := by
  unfold bytesOf
  apply List.map_congr_left
  intro j hj
  rw [List.mem_range] at hj
  have hne : j ≠ i := by omega
  simp [store, hne]

/-- Appending a byte at index `n` to the first `n` bytes. -/
theorem bytesOf_store_succ (a : Nat → Nat) (n v : Nat) :
    bytesOf (store a n v) (n + 1) = bytesOf a n ++ [v] := by
  rw [bytesOf_succ, bytesOf_store_ge a n v n (Nat.le_refl n)]
  simp [store]

theorem bytesOf_getElem? (a : Nat → Nat) (n j : Nat) (h : j < n) :
    (bytesOf a n)[j]? = some (a j) := by
  simp [bytesOf, List.getElem?_range h]

/-- The invariant `Collected` holds after every input fed to a parser that was in `WAIT`. -/
theorem collected_feed (c : Common) (p0 : HapcanParser) (hw : p0.state = State.WAIT)
    (s : List Nat) : Collected c p0 s (feed c p0 s) := by
  induction s using List.reverseRecOn with
  | nil =>
    intro h
    rw [feed_nil, hw] at h
    cases h
  | append_singleton s b ih =>
    intro h
    rw [feed_append, feed_cons, feed_nil] at h ⊢
    cases hst : (feed c p0 s).state with
    | WAIT =>
      rw [parseByte_wait c _ b hst] at h ⊢
      split_ifs at h ⊢ with hb
      · refine ⟨s, [], by simp [hb], hst, rfl, by simp, ?_⟩
        subst hb
        exact bytesOf_store_succ _ 0 _
      · rw [hst] at h
        cases h
    | COLLECTING =>
      obtain ⟨pre, mid, hs, hpre, hlen, h15, hbuf⟩ := ih hst
      rw [parseByte_collecting c _ b hst (by omega)] at h ⊢
      split_ifs at h ⊢ with h1 h2
      refine ⟨pre, mid ++ [b], by simp [hs], hpre, ?_, ?_, ?_⟩
      · simp only [List.length_append, List.length_singleton]
        omega
      · show (feed c p0 s).index + 1 ≤ 15
        omega
      · show bytesOf (store _ (feed c p0 s).index b) ((feed c p0 s).index + 1) = _
        rw [bytesOf_store_succ, hbuf]
        simp

/-- In `COLLECTING`, reached from `WAIT`, byte 0 of the buffer is the start marker and
the index lies between 1 and 15. -/
theorem collecting_bounds (c : Common) (p0 : HapcanParser) (hw : p0.state = State.WAIT)
    (s : List Nat) (h : (feed c p0 s).state = State.COLLECTING) :
    (feed c p0 s).buffer 0 = c.HAPCAN_START_BYTE ∧
    1 ≤ (feed c p0 s).index ∧ (feed c p0 s).index ≤ 15 := by
  obtain ⟨pre, mid, _, _, hlen, h15, hbuf⟩ := collected_feed c p0 hw s h
  refine ⟨?_, by omega, h15⟩
  have h0 := bytesOf_getElem? (feed c p0 s).buffer (feed c p0 s).index 0 (by omega)
  rw [hbuf] at h0
  simpa using h0.symm

/-- From `WAIT`, bytes other than the start marker leave the parser as it was. -/
theorem feed_noise (c : Common) (p : HapcanParser) (hw : p.state = State.WAIT)
    (l : List Nat) (hl : ∀ x, x ∈ l → x ≠ c.HAPCAN_START_BYTE) : feed c p l = p := by
  induction l with
  | nil => rfl
  | cons x l ih =>
    rw [feed_cons, parseByte_wait_other c p x hw (hl x (List.mem_cons_self x l))]
    exact ih (fun y hy => hl y (List.mem_cons_of_mem x hy))

/-- From `WAIT`, every call on a byte other than the start marker returns false. -/
theorem returns_noise (c : Common) (p : HapcanParser) (hw : p.state = State.WAIT)
    (l : List Nat) (hl : ∀ x, x ∈ l → x ≠ c.HAPCAN_START_BYTE) :
    returns c p l = List.replicate l.length false := by
  induction l with
  | nil => rfl
  | cons x l ih =>
    rw [returns, parseByte_wait_other c p x hw (hl x (List.mem_cons_self x l))]
    simp only [List.length_cons, List.replicate_succ]
    rw [ih (fun y hy => hl y (List.mem_cons_of_mem x hy))]

/-- A parser collecting at index `i` returns true if the end marker arrives when the
index is 4, 12 or 14, whatever is buffered on the way. -/
theorem collect_hit (c : Common) (rest : List Nat) (q : HapcanParser) (i : Nat)
    (hs : q.state = State.COLLECTING) (hi : q.index = i)
    (hk : ∃ k, (k = 4 ∨ k = 12 ∨ k = 14) ∧ i ≤ k ∧ rest[k - i]? = some c.HAPCAN_END_BYTE) :
    true ∈ returns c q rest := by
  induction rest generalizing q i with
  | nil =>
    obtain ⟨k, _, _, h⟩ := hk
    simp at h
  | cons b t ih =>
    rw [returns]
    by_cases hr : (parseByte c q b).1 = true
    · rw [hr]
      exact List.mem_cons_self _ _
    · obtain ⟨k, hk3, hik, hend⟩ := hk
      have hlt : i < k := by
        rcases Nat.lt_or_ge i k with h | h
        · exact h
        · exfalso
          have hki : k - i = 0 := by omega
          rw [hki] at hend
          simp only [List.getElem?_cons_zero, Option.some.injEq] at hend
          subst hend
          exact hr (parseByte_hit c q hs (by omega))
      have hf : (parseByte c q b).1 = false := by simpa using hr
      have hq := parseByte_collect c q b hs (by omega) hf
      apply List.mem_cons_of_mem
      refine ih (parseByte c q b).2 (i + 1) (by rw [hq]) (by rw [hq, hi]) ⟨k, hk3, hlt, ?_⟩
      have hki : k - i = (k - (i + 1)) + 1 := by omega
      rw [hki, List.getElem?_cons_succ] at hend
      exact hend

/-- A list splits around the element at position `p`. -/
theorem split_at (s : List Nat) (p x : Nat) (h : s[p]? = some x) :
    s = s.take p ++ x :: s.drop (p + 1) := by
  induction s generalizing p with
  | nil => simp at h
  | cons a t ih =>
    cases p with
    | zero =>
      simp only [List.getElem?_cons_zero, Option.some.injEq] at h
      simp [h]
    | succ p =>
      simp only [List.getElem?_cons_succ] at h
      simp only [List.take_succ_cons, List.drop_succ_cons, List.cons_append]
      rw [← ih p h]

theorem getElem?_append_cons_zero (pre : List Nat) (x : Nat) (rest : List Nat) :
    (pre ++ x :: rest)[pre.length]? = some x := by
  rw [List.getElem?_append_right (Nat.le_refl _)]
  simp

theorem getElem?_append_cons_succ (pre : List Nat) (x : Nat) (rest : List Nat) (k : Nat) :
    (pre ++ x :: rest)[pre.length + (k + 1)]? = rest[k]? := by
  rw [List.getElem?_append_right (by omega)]
  have e : pre.length + (k + 1) - pre.length = k + 1 := by omega
  rw [e, List.getElem?_cons_succ]

/-! ## Claims about the parser -/

/-- C4: in every state reached from a fresh parser by a sequence of `parseByte` calls,
whenever `parseByte` returns true the parser is back in `WAIT`, `getFrameLength()` is 5,
13 or 15, byte 0 of `getFrame()` is the start marker and byte `getFrameLength() - 1` is
the end marker. -/
theorem frame_ready_shape (c : Common) (buffer : Nat → Nat) (s : List Nat) (b : Nat)
    (h : (parseByte c (feed c (init buffer) s) b).1 = true) :
    (parseByte c (feed c (init buffer) s) b).2.state = State.WAIT ∧
    (getFrameLength (parseByte c (feed c (init buffer) s) b).2 = 5 ∨
      getFrameLength (parseByte c (feed c (init buffer) s) b).2 = 13 ∨
      getFrameLength (parseByte c (feed c (init buffer) s) b).2 = 15) ∧
    getFrame (parseByte c (feed c (init buffer) s) b).2 0 = c.HAPCAN_START_BYTE ∧
    getFrame (parseByte c (feed c (init buffer) s) b).2
      (getFrameLength (parseByte c (feed c (init buffer) s) b).2 - 1)
      = c.HAPCAN_END_BYTE := by
  obtain ⟨hst, hidx, hb, hp⟩ := parseByte_true c _ b h
  obtain ⟨h0, h1, _⟩ := collecting_bounds c (init buffer) rfl s hst
  rw [hp]
  simp only [getFrameLength, getFrame, store_apply, Nat.add_sub_cancel, if_true]
  have hne : ¬ (0 = (feed c (init buffer) s).index) := by omega
  refine ⟨trivial, by omega, ?_, hb⟩
  rw [if_neg hne]
  exact h0

/-- Instance of C4: a fresh parser fed the start marker and three bytes returns true on
the end marker, and then reports a frame of length 5. -/
theorem frame_ready_shape_witness :
    (parseByte hapcanCommon (feed hapcanCommon (init (fun _ => 0)) [0xAA, 1, 2, 3]) 0xA5).1
      = true ∧
    getFrameLength
      (parseByte hapcanCommon (feed hapcanCommon (init (fun _ => 0)) [0xAA, 1, 2, 3]) 0xA5).2
      = 5 ∧
    getFrame
      (parseByte hapcanCommon (feed hapcanCommon (init (fun _ => 0)) [0xAA, 1, 2, 3]) 0xA5).2
      0 = 0xAA :=
  ⟨by decide, by decide,
    (frame_ready_shape hapcanCommon (fun _ => 0) [0xAA, 1, 2, 3] 0xA5 (by decide)).2.2.1⟩

/-- C3, as stated, fails: in `nestedStart` the second start marker has the end marker
exactly 4 positions after it, yet no call of `parseByte` returns true, because that start
marker arrives while the parser is collecting and is buffered as data. -/
theorem nested_start_counterexample :
    ¬ (true ∈ returns hapcanCommon (init (fun _ => 0)) nestedStart ↔
        ∃ p, nestedStart[p]? = some hapcanCommon.HAPCAN_START_BYTE ∧
          (nestedStart[p + 4]? = some hapcanCommon.HAPCAN_END_BYTE ∨
           nestedStart[p + 12]? = some hapcanCommon.HAPCAN_END_BYTE ∨
           nestedStart[p + 14]? = some hapcanCommon.HAPCAN_END_BYTE)) := by
  intro h
  have hmem : true ∈ returns hapcanCommon (init (fun _ => 0)) nestedStart :=
    h.mpr ⟨1, by decide, Or.inl (by decide)⟩
  revert hmem
  decide

/-- C3, amended: for every byte sequence `s` fed to a fresh parser, `parseByte` returns
true on at least one byte if and only if `s` has a start marker at a position `p` that is
received while the parser is in `WAIT`, with the end marker exactly 4, 12 or 14 positions
after `p`. A start marker before which `s` has no start marker is received in `WAIT`. -/
theorem reports_iff_synced_start (c : Common) (buffer : Nat → Nat) (s : List Nat) :
    (true ∈ returns c (init buffer) s ↔
      ∃ p, (feed c (init buffer) (s.take p)).state = State.WAIT ∧
        s[p]? = some c.HAPCAN_START_BYTE ∧
        (s[p + 4]? = some c.HAPCAN_END_BYTE ∨
         s[p + 12]? = some c.HAPCAN_END_BYTE ∨
         s[p + 14]? = some c.HAPCAN_END_BYTE)) ∧
    (∀ p, (∀ q, q < p → s[q]? ≠ some c.HAPCAN_START_BYTE) →
      (feed c (init buffer) (s.take p)).state = State.WAIT) := by
  constructor
  · constructor
    · intro h
      obtain ⟨s1, b, s2, hs, hr⟩ := (mem_returns_iff c _ s).mp h
      obtain ⟨hst, hidx, hb, _⟩ := parseByte_true c _ b hr
      obtain ⟨pre, mid, hs1, hpre, hlen, _, _⟩ := collected_feed c (init buffer) rfl s1 hst
      have hsplit : s = pre ++ c.HAPCAN_START_BYTE :: (mid ++ b :: s2) := by
        rw [hs, hs1]; simp
      have htake : s.take pre.length = pre := by
        rw [hsplit]; simp
      have hstart : s[pre.length]? = some c.HAPCAN_START_BYTE := by
        rw [hsplit]; exact getElem?_append_cons_zero _ _ _
      have hend : s[pre.length + (feed c (init buffer) s1).index]? = some c.HAPCAN_END_BYTE := by
        rw [hsplit, ← hlen, ← hb, getElem?_append_cons_succ]
        exact getElem?_append_cons_zero _ _ _
      refine ⟨pre.length, by rw [htake]; exact hpre, hstart, ?_⟩
      rcases hidx with h4 | h12 | h14
      · rw [h4] at hend; exact Or.inl hend
      · rw [h12] at hend; exact Or.inr (Or.inl hend)
      · rw [h14] at hend; exact Or.inr (Or.inr hend)
    · rintro ⟨p, hw, hstart, hend⟩
      have hsplit := split_at s p _ hstart
      rw [hsplit, returns_append, returns, parseByte_wait_start c _ hw]
      apply List.mem_append_right
      apply List.mem_cons_of_mem
      refine collect_hit c _ _ 1 rfl rfl ?_
      have hd : ∀ k, 1 ≤ k → (s.drop (p + 1))[k - 1]? = s[p + k]? := by
        intro k hk
        rw [List.getElem?_drop]
        congr 1
        omega
      rcases hend with h | h | h
      · exact ⟨4, by omega, by omega, by rw [hd 4 (by omega)]; exact h⟩
      · exact ⟨12, by omega, by omega, by rw [hd 12 (by omega)]; exact h⟩
      · exact ⟨14, by omega, by omega, by rw [hd 14 (by omega)]; exact h⟩
  · intro p hp
    rw [feed_noise c (init buffer) rfl]
    · rfl
    · intro x hx hxs
      obtain ⟨q, hq, hget⟩ := List.getElem_of_mem hx
      rw [List.length_take] at hq
      have hq1 : q < p := by omega
      have hq2 : q < s.length := by omega
      apply hp q hq1
      rw [List.getElem_take] at hget
      rw [List.getElem?_eq_getElem hq2, hget, hxs]

/-- A parser in `WAIT` fed a 5-byte frame returns true on its last byte only, and then
reports exactly that frame. -/
theorem five_byte_frame (c : Common) (p : HapcanParser) (hw : p.state = State.WAIT)
    (a b d : Nat) :
    returns c p [c.HAPCAN_START_BYTE, a, b, d, c.HAPCAN_END_BYTE]
      = [false, false, false, false, true] ∧
    getFrameLength (feed c p [c.HAPCAN_START_BYTE, a, b, d, c.HAPCAN_END_BYTE]) = 5 ∧
    bytesOf (getFrame (feed c p [c.HAPCAN_START_BYTE, a, b, d, c.HAPCAN_END_BYTE])) 5
      = [c.HAPCAN_START_BYTE, a, b, d, c.HAPCAN_END_BYTE] := by
  simp [returns, feed, parseByte, hw, store, bytesOf, getFrame, getFrameLength,
    List.range, List.range.loop]

/-- C9: for every run of 17 bytes none of which is the start or the end marker, followed
by any 5-byte frame `[start, a, b, d, end]`, feeding the 22 bytes to a fresh parser makes
`parseByte` return true exactly once, on the last byte; `getFrameLength()` is then 5 and
`getFrame()` holds exactly `[start, a, b, d, end]`. -/
theorem noise_then_frame (c : Common) (buffer : Nat → Nat) (noise : List Nat) (a b d : Nat)
    (hlen : noise.length = 17)
    (hnoise : ∀ x, x ∈ noise → x ≠ c.HAPCAN_START_BYTE ∧ x ≠ c.HAPCAN_END_BYTE) :
    returns c (init buffer) (noise ++ [c.HAPCAN_START_BYTE, a, b, d, c.HAPCAN_END_BYTE])
      = List.replicate 21 false ++ [true] ∧
    getFrameLength
      (feed c (init buffer) (noise ++ [c.HAPCAN_START_BYTE, a, b, d, c.HAPCAN_END_BYTE]))
      = 5 ∧
    bytesOf (getFrame
      (feed c (init buffer) (noise ++ [c.HAPCAN_START_BYTE, a, b, d, c.HAPCAN_END_BYTE]))) 5
      = [c.HAPCAN_START_BYTE, a, b, d, c.HAPCAN_END_BYTE] := by
  have hn : ∀ x, x ∈ noise → x ≠ c.HAPCAN_START_BYTE := fun x hx => (hnoise x hx).1
  obtain ⟨h1, h2, h3⟩ := five_byte_frame c (init buffer) rfl a b d
  rw [returns_append, feed_append, feed_noise c _ rfl noise hn,
    returns_noise c _ rfl noise hn, hlen, h1]
  exact ⟨by decide, h2, h3⟩

/-- Instance of C9 with the noise `0, 1, ..., 16` and the frame `[0xAA, 0xA5, 0xAA, 7, 0xA5]`,
whose body holds both markers. -/
theorem noise_then_frame_witness :
    (List.range 17).length = 17 ∧
    (∀ x, x ∈ List.range 17 →
      x ≠ hapcanCommon.HAPCAN_START_BYTE ∧ x ≠ hapcanCommon.HAPCAN_END_BYTE) ∧
    returns hapcanCommon (init (fun _ => 0))
        (List.range 17 ++ [hapcanCommon.HAPCAN_START_BYTE, 0xA5, 0xAA, 7,
          hapcanCommon.HAPCAN_END_BYTE])
      = List.replicate 21 false ++ [true] :=
  ⟨by decide, by decide,
    (noise_then_frame hapcanCommon (fun _ => 0) (List.range 17) 0xA5 0xAA 7
      (by decide) (by decide)).1⟩

end HapcanParser

/-! ## Lemmas on `broadcastFrame` and `processFrame` -/

theorem writes_writeCalls (slots : List Nat) (data : List Nat) :
    writes (writeCalls slots data) = slots.map (fun i => (i, data)) := by
  induction slots with
  | nil => rfl
  | cons i l ih =>
    simp only [writeCalls, List.map_cons] at ih ⊢
    simp only [writes, List.filterMap_cons] at ih ⊢
    rw [ih]

theorem broadcasts_writeCalls (slots : List Nat) (data : List Nat) :
    broadcasts (writeCalls slots data) = [] := by
  induction slots with
  | nil => rfl
  | cons i l ih =>
    simp only [writeCalls, List.map_cons] at ih ⊢
    simp only [broadcasts, List.filterMap_cons] at ih ⊢
    rw [ih]

theorem transmits_writeCalls (slots : List Nat) (data : List Nat) :
    transmits (writeCalls slots data) = [] := by
  induction slots with
  | nil => rfl
  | cons i l ih =>
    simp only [writeCalls, List.map_cons] at ih ⊢
    simp only [transmits, List.filterMap_cons] at ih ⊢
    rw [ih]

/-- The loop of `broadcastFrame` over the slots `0 .. n-1`: every live slot among them
is written once, in increasing order, and only its transport changes. -/
theorem broadcast_loop {W : Type} (T : Transport W) (data : Nat → Nat) (len : Nat)
    (clients : Nat → SocketConnection W) (tr : List Call) (n : Nat) :
    (List.range n).foldl (broadcastSlot T data len) (clients, tr) =
      ((fun j =>
          if j < n ∧ live T clients j = true then
            { clients j with
              client := (T.write (clients j).client (bytesOf data len)).1 }
          else clients j),
        tr ++ writeCalls ((List.range n).filter (live T clients)) (bytesOf data len)) := by
  induction n with
  | zero => simp [writeCalls]
  | succ n ih =>
    rw [List.range_succ, List.foldl_append, ih]
    simp only [List.foldl_cons, List.foldl_nil, broadcastSlot, List.filter_append,
      writeCalls, List.map_append]
    have hn : ¬ (n < n ∧ live T clients n = true) := by omega
    simp only [hn, if_false]
    by_cases hl : live T clients n = true
    · have hl2 : ((clients n).active && T.connected (clients n).client) = true := hl
      rw [if_pos hl2]
      simp only [List.filter_cons, List.filter_nil, hl, if_true, List.map_cons, List.map_nil,
        List.append_assoc]
      refine Prod.ext ?_ rfl
      funext j
      simp only [store_apply]
      by_cases hj : j = n
      · subst hj
        simp [hl]
      · have e : (j < n + 1 ∧ live T clients j = true) ↔ (j < n ∧ live T clients j = true) := by
          constructor
          · rintro ⟨h1, h2⟩; exact ⟨by omega, h2⟩
          · rintro ⟨h1, h2⟩; exact ⟨by omega, h2⟩
        simp only [hj, if_false, e]
    · have hl2 : ¬ ((clients n).active && T.connected (clients n).client) = true := hl
      rw [if_neg hl2]
      simp only [List.filter_cons, List.filter_nil, hl, if_false, List.map_nil,
        List.append_nil]
      refine Prod.ext ?_ (by simp)
      funext j
      by_cases hj : j = n
      · subst hj
        simp [hl]
      · have e : (j < n + 1 ∧ live T clients j = true) ↔ (j < n ∧ live T clients j = true) := by
          constructor
          · rintro ⟨h1, h2⟩; exact ⟨by omega, h2⟩
          · rintro ⟨h1, h2⟩; exact ⟨by omega, h2⟩
        simp only [e]

/-- The calls made by `broadcastFrame`: its own entry, then one write per live slot. -/
theorem broadcastFrame_calls {W : Type} (c : Common) (T : Transport W) (data : Nat → Nat)
    (len : Nat) (clients : Nat → SocketConnection W) :
    (broadcastFrame c T data len clients).2 =
      Call.broadcastFrame (bytesOf data len) ::
        writeCalls ((List.range c.MAX_CLIENTS).filter (live T clients)) (bytesOf data len) := by
  rw [broadcastFrame, broadcast_loop]
  rfl

/-- The table left by `broadcastFrame`. -/
theorem broadcastFrame_clients {W : Type} (c : Common) (T : Transport W) (data : Nat → Nat)
    (len : Nat) (clients : Nat → SocketConnection W) (j : Nat) :
    (broadcastFrame c T data len clients).1 j =
      if j < c.MAX_CLIENTS ∧ live T clients j = true then
        { clients j with client := (T.write (clients j).client (bytesOf data len)).1 }
      else clients j := by
  rw [broadcastFrame, broadcast_loop]

theorem writes_append (a b : List Call) : writes (a ++ b) = writes a ++ writes b := by
  simp [writes, List.filterMap_append]

theorem broadcasts_append (a b : List Call) :
    broadcasts (a ++ b) = broadcasts a ++ broadcasts b := by
  simp [broadcasts, List.filterMap_append]

theorem transmits_append (a b : List Call) :
    transmits (a ++ b) = transmits a ++ transmits b := by
  simp [transmits, List.filterMap_append]

theorem writes_debugPrintln (l : DebugLine) : writes [Call.debugPrintln l] = [] := rfl

theorem broadcasts_debugPrintln (l : DebugLine) : broadcasts [Call.debugPrintln l] = [] := rfl

theorem transmits_debugPrintln (l : DebugLine) : transmits [Call.debugPrintln l] = [] := rfl

theorem writes_display (b : Bool) (f : List Nat) :
    writes [Call.addHAPCANDisplayMessage b f] = [] := rfl

theorem broadcasts_display (b : Bool) (f : List Nat) :
    broadcasts [Call.addHAPCANDisplayMessage b f] = [] := rfl

theorem transmits_display (b : Bool) (f : List Nat) :
    transmits [Call.addHAPCANDisplayMessage b f] = [] := rfl

theorem writes_twai_transmit (m : twai_message_t) : writes [Call.twai_transmit m] = [] := rfl

theorem broadcasts_twai_transmit (m : twai_message_t) :
    broadcasts [Call.twai_transmit m] = [] := rfl

theorem transmits_twai_transmit (m : twai_message_t) :
    transmits [Call.twai_transmit m] = [m] := rfl

/-- The writes of one `broadcastFrame`: the live slots below `MAX_CLIENTS`, in order. -/
theorem writes_broadcastFrame {W : Type} (c : Common) (T : Transport W) (data : Nat → Nat)
    (len : Nat) (clients : Nat → SocketConnection W) :
    writes (broadcastFrame c T data len clients).2
      = ((List.range c.MAX_CLIENTS).filter (live T clients)).map
          (fun i => (i, bytesOf data len)) := by
  rw [broadcastFrame_calls]
  exact writes_writeCalls _ _

theorem broadcasts_broadcastFrame {W : Type} (c : Common) (T : Transport W)
    (data : Nat → Nat) (len : Nat) (clients : Nat → SocketConnection W) :
    broadcasts (broadcastFrame c T data len clients).2 = [bytesOf data len] := by
  rw [broadcastFrame_calls]
  show bytesOf data len :: broadcasts (writeCalls _ _) = _
  rw [broadcasts_writeCalls]

theorem transmits_broadcastFrame {W : Type} (c : Common) (T : Transport W)
    (data : Nat → Nat) (len : Nat) (clients : Nat → SocketConnection W) :
    transmits (broadcastFrame c T data len clients).2 = [] := by
  rw [broadcastFrame_calls]
  exact transmits_writeCalls _ _

theorem hardwareTypeResponse_bytes (c : Common) :
    bytesOf (ofBytes (hardwareTypeResponse c)) 13 = hardwareTypeResponse c := rfl

theorem firmwareTypeResponse_bytes (c : Common) :
    bytesOf (ofBytes (firmwareTypeResponse c)) 13 = firmwareTypeResponse c := rfl

theorem descriptionResponse1_bytes (c : Common) :
    bytesOf (ofBytes (descriptionResponse1 c)) 13 = descriptionResponse1 c := rfl

theorem descriptionResponse2_bytes (c : Common) :
    bytesOf (ofBytes (descriptionResponse2 c)) 13 = descriptionResponse2 c := rfl

theorem supplyVoltageResponse_bytes (c : Common) :
    bytesOf (ofBytes (supplyVoltageResponse c)) 13 = supplyVoltageResponse c := rfl

/-- The calls of `processFrame` on a 15-byte frame: dump, display, transmit, and a line
more when the transmit fails. -/
theorem processFrame_fifteen {W : Type} (c : Common) (T : Transport W) (frame : Nat → Nat)
    (tx_msg : twai_message_t) (err : Nat) (clients : Nat → SocketConnection W) :
    (processFrame c T frame 15 tx_msg err clients).2
      = [Call.debugPrintln (DebugLine.frameDump (bytesOf frame 15))]
        ++ [Call.addHAPCANDisplayMessage true (bytesOf frame 15)]
        ++ [Call.twai_transmit (decodeFrame frame 15 tx_msg).2]
        ++ (if err ≠ ESP_OK then [Call.debugPrintln (DebugLine.transmitFailed err)]
            else []) := by
  have hd : (decodeFrame frame 15 tx_msg).1 = true := by simp [decodeFrame]
  by_cases he : err = ESP_OK <;> simp [processFrame, hd, he]

/-- The calls of `processFrame` on a 5-byte frame addressed to 0x10. -/
theorem processFrame_query {W : Type} (c : Common) (T : Transport W) (frame : Nat → Nat)
    (tx_msg : twai_message_t) (err : Nat) (clients : Nat → SocketConnection W)
    (h1 : frame 1 = 0x10) :
    (processFrame c T frame 5 tx_msg err clients).2
      = [Call.debugPrintln (DebugLine.frameDump (bytesOf frame 5))] ++
        (if frame 2 = 0x40 then
          (broadcastFrame c T (ofBytes (hardwareTypeResponse c)) 13 clients).2
            ++ [Call.debugPrintln DebugLine.hardwareType]
        else if frame 2 = 0x60 then
          (broadcastFrame c T (ofBytes (firmwareTypeResponse c)) 13 clients).2
            ++ [Call.debugPrintln DebugLine.firmwareType]
        else if frame 2 = 0xE0 then
          (broadcastFrame c T (ofBytes (descriptionResponse1 c)) 13 clients).2
            ++ (broadcastFrame c T (ofBytes (descriptionResponse2 c)) 13
                (broadcastFrame c T (ofBytes (descriptionResponse1 c)) 13 clients).1).2
            ++ [Call.debugPrintln DebugLine.description]
        else if frame 2 = 0xC0 then
          (broadcastFrame c T (ofBytes (supplyVoltageResponse c)) 13 clients).2
            ++ [Call.debugPrintln DebugLine.supplyVoltage]
        else [Call.debugPrintln DebugLine.unknownCommand]) := by
  simp only [processFrame, h1]
  split_ifs <;> simp_all

/-- The calls of `processFrame` on any other frame: the dump and one more line. -/
theorem processFrame_other {W : Type} (c : Common) (T : Transport W) (frame : Nat → Nat)
    (len : Nat) (tx_msg : twai_message_t) (err : Nat) (clients : Nat → SocketConnection W)
    (h15 : len ≠ 15) (h5 : ¬ (len = 5 ∧ frame 1 = 0x10)) :
    (processFrame c T frame len tx_msg err clients).2
      = [Call.debugPrintln (DebugLine.frameDump (bytesOf frame len)),
         Call.debugPrintln (DebugLine.unknownLength len)] := by
  simp [processFrame, h15, h5]

/-! ## Claims about `decodeFrame`, `processFrame` and `broadcastFrame` -/

/-- C5: `decodeFrame` returns failure if and only if `len` is not 15. With `len = 15` it
returns success whatever the bytes of the frame are (no byte is inspected: neither the
checksum byte 13 nor the markers at 0 and 14); with any other `len` it returns failure and
leaves the message as it was. -/
theorem decode_fails_iff (frame : Nat → Nat) (len : Nat) (msg : twai_message_t) :
    ((decodeFrame frame len msg).1 = false ↔ len ≠ 15) ∧
    (decodeFrame frame 15 msg).1 = true ∧
    (len ≠ 15 → decodeFrame frame len msg = (false, msg)) := by
  refine ⟨?_, by simp [decodeFrame], fun h => by simp [decodeFrame, h]⟩
  by_cases h : len = 15 <;> simp [decodeFrame, h]

/-- Instance of C5: a frame of zeros (wrong markers, and 13 bytes claimed) is refused with
the message untouched, and the same frame with `len = 15` is accepted. -/
theorem decode_fails_iff_witness :
    (13 : Nat) ≠ 15 ∧
    decodeFrame (fun _ => 0) 13 sampleMsg = (false, sampleMsg) ∧
    (decodeFrame (fun _ => 0) 15 sampleMsg).1 = true :=
  ⟨by decide, (decode_fails_iff (fun _ => 0) 13 sampleMsg).2.2 (by decide),
    (decode_fails_iff (fun _ => 0) 13 sampleMsg).2.1⟩

/-- C10: for every client table, transport behaviour and frame, `broadcastFrame` writes
the bytes of the frame once to each slot below `MAX_CLIENTS` that is active and connected,
in increasing slot order, and to no other slot; what a write returns or does to its
transport has no part in this. Only the transport of a written slot changes, and when no
slot is active and connected there is no write. -/
theorem broadcast_writes {W : Type} (c : Common) (T : Transport W) (data : Nat → Nat)
    (len : Nat) (clients : Nat → SocketConnection W) :
    writes (broadcastFrame c T data len clients).2
      = ((List.range c.MAX_CLIENTS).filter (live T clients)).map
          (fun i => (i, bytesOf data len)) ∧
    (∀ j, (broadcastFrame c T data len clients).1 j =
      if j < c.MAX_CLIENTS ∧ live T clients j = true then
        { clients j with client := (T.write (clients j).client (bytesOf data len)).1 }
      else clients j) ∧
    ((∀ i, i < c.MAX_CLIENTS → live T clients i = false) →
      writes (broadcastFrame c T data len clients).2 = []) := by
  have hw := writes_broadcastFrame c T data len clients
  refine ⟨hw, broadcastFrame_clients c T data len clients, fun h => ?_⟩
  rw [hw, List.map_eq_nil_iff, List.filter_eq_nil_iff]
  intro i hi
  rw [List.mem_range] at hi
  simp [h i hi]

/-- Instance of C10 on `sampleClients`: the 5-byte frame is written to slots 0 and 2, in
this order, and to no other slot. -/
theorem broadcast_writes_witness :
    writes (broadcastFrame hapcanCommon sampleTransport
        (ofBytes [0xAA, 0x10, 0x40, 0, 0xA5]) 5 sampleClients).2
      = [(0, [0xAA, 0x10, 0x40, 0, 0xA5]), (2, [0xAA, 0x10, 0x40, 0, 0xA5])] :=
  (broadcast_writes hapcanCommon sampleTransport
    (ofBytes [0xAA, 0x10, 0x40, 0, 0xA5]) 5 sampleClients).1.trans (by decide)

/-- C6: for every byte `X`, `processFrame` on the 5-byte frame `[start, 0x10, 0x40, X, end]`
calls `broadcastFrame` exactly once, with the 13-byte hardware type reply
`[start, 0x10, 0x41, 0x30, 0x00, 0x03, 0xFF, 0x00, 0x00, 0x07, 0xA0, 0x2A, end]`; the
reply is written once to every slot that is active and connected and to no other, and
`twai_transmit` is not called. -/
theorem hardware_type_request {W : Type} (c : Common) (T : Transport W) (X : Nat)
    (tx_msg : twai_message_t) (err : Nat) (clients : Nat → SocketConnection W) :
    broadcasts (processFrame c T
        (ofBytes [c.HAPCAN_START_BYTE, 0x10, 0x40, X, c.HAPCAN_END_BYTE]) 5
        tx_msg err clients).2
      = [[c.HAPCAN_START_BYTE, 0x10, 0x41, 0x30, 0x00, 0x03, 0xFF,
          0x00, 0x00, 0x07, 0xA0, 0x2A, c.HAPCAN_END_BYTE]] ∧
    writes (processFrame c T
        (ofBytes [c.HAPCAN_START_BYTE, 0x10, 0x40, X, c.HAPCAN_END_BYTE]) 5
        tx_msg err clients).2
      = ((List.range c.MAX_CLIENTS).filter (live T clients)).map
          (fun i => (i, [c.HAPCAN_START_BYTE, 0x10, 0x41, 0x30, 0x00, 0x03, 0xFF,
            0x00, 0x00, 0x07, 0xA0, 0x2A, c.HAPCAN_END_BYTE])) ∧
    (transmits (processFrame c T
        (ofBytes [c.HAPCAN_START_BYTE, 0x10, 0x40, X, c.HAPCAN_END_BYTE]) 5
        tx_msg err clients).2).length = 0 := by
  have hp : (processFrame c T
        (ofBytes [c.HAPCAN_START_BYTE, 0x10, 0x40, X, c.HAPCAN_END_BYTE]) 5
        tx_msg err clients).2
      = [Call.debugPrintln (DebugLine.frameDump
          [c.HAPCAN_START_BYTE, 0x10, 0x40, X, c.HAPCAN_END_BYTE])]
        ++ (broadcastFrame c T (ofBytes (hardwareTypeResponse c)) 13 clients).2
        ++ [Call.debugPrintln DebugLine.hardwareType] := by
    simp [processFrame, ofBytes]
    rfl
  rw [hp]
  simp only [broadcasts_append, writes_append, transmits_append, broadcasts_broadcastFrame,
    writes_broadcastFrame, transmits_broadcastFrame, hardwareTypeResponse_bytes,
    broadcasts_debugPrintln, writes_debugPrintln, transmits_debugPrintln,
    List.nil_append, List.append_nil]
  exact ⟨rfl, rfl, rfl⟩

/-- C7: for every 5-byte frame whose byte 1 is 0x10 and whose byte 2 is 0xE0,
`processFrame` calls `broadcastFrame` exactly twice, first with `descriptionResponse1` and
then with `descriptionResponse2`; each reply has 13 bytes and byte 2 equal to 0xE1, and
bytes 3..10 of the first followed by bytes 3..10 of the second are the 16 ASCII
characters of "RS232C Interface". -/
theorem description_request {W : Type} (c : Common) (T : Transport W) (frame : Nat → Nat)
    (tx_msg : twai_message_t) (err : Nat) (clients : Nat → SocketConnection W)
    (h1 : frame 1 = 0x10) (h2 : frame 2 = 0xE0) :
    broadcasts (processFrame c T frame 5 tx_msg err clients).2
      = [descriptionResponse1 c, descriptionResponse2 c] ∧
    (descriptionResponse1 c).length = 13 ∧ (descriptionResponse2 c).length = 13 ∧
    (descriptionResponse1 c)[2]? = some 0xE1 ∧ (descriptionResponse2 c)[2]? = some 0xE1 ∧
    ((descriptionResponse1 c).drop 3).take 8 ++ ((descriptionResponse2 c).drop 3).take 8
      = deviceName.toList.map Char.toNat := by
  refine ⟨?_, rfl, rfl, rfl, rfl, rfl⟩
  have hp : (processFrame c T frame 5 tx_msg err clients).2
      = [Call.debugPrintln (DebugLine.frameDump (bytesOf frame 5))]
        ++ (broadcastFrame c T (ofBytes (descriptionResponse1 c)) 13 clients).2
        ++ (broadcastFrame c T (ofBytes (descriptionResponse2 c)) 13
            (broadcastFrame c T (ofBytes (descriptionResponse1 c)) 13 clients).1).2
        ++ [Call.debugPrintln DebugLine.description] := by
    simp [processFrame, h1, h2]
  rw [hp]
  simp only [broadcasts_append, broadcasts_broadcastFrame, descriptionResponse1_bytes,
    descriptionResponse2_bytes, broadcasts_debugPrintln, List.nil_append, List.append_nil]
  rfl

/-- Instance of C7 on the frame `[0xAA, 0x10, 0xE0, 0, 0xA5]` and `sampleClients`. -/
theorem description_request_witness :
    ofBytes [0xAA, 0x10, 0xE0, 0, 0xA5] 1 = 0x10 ∧
    ofBytes [0xAA, 0x10, 0xE0, 0, 0xA5] 2 = 0xE0 ∧
    broadcasts (processFrame hapcanCommon sampleTransport
        (ofBytes [0xAA, 0x10, 0xE0, 0, 0xA5]) 5 sampleMsg 0 sampleClients).2
      = [descriptionResponse1 hapcanCommon, descriptionResponse2 hapcanCommon] :=
  ⟨by decide, by decide,
    (description_request hapcanCommon sampleTransport (ofBytes [0xAA, 0x10, 0xE0, 0, 0xA5])
      sampleMsg 0 sampleClients (by decide) (by decide)).1⟩

/-- C8: for every frame and length given to `processFrame`, `twai_transmit` is called if
and only if the length is 15, and `broadcastFrame` is called if and only if the length
is 5, byte 1 is 0x10 and byte 2 is one of 0x40, 0x60, 0xE0, 0xC0. No input causes both,
and without a call of `broadcastFrame` nothing is written to any client: so a 5-byte
frame for 0x10 with another selector gets no reply, and a frame of any other shape
causes neither a reply nor a transmit. -/
theorem processFrame_effects {W : Type} (c : Common) (T : Transport W) (frame : Nat → Nat)
    (len : Nat) (tx_msg : twai_message_t) (err : Nat) (clients : Nat → SocketConnection W) :
    (transmits (processFrame c T frame len tx_msg err clients).2 ≠ [] ↔ len = 15) ∧
    (broadcasts (processFrame c T frame len tx_msg err clients).2 ≠ [] ↔
      (len = 5 ∧ frame 1 = 0x10 ∧
        (frame 2 = 0x40 ∨ frame 2 = 0x60 ∨ frame 2 = 0xE0 ∨ frame 2 = 0xC0))) ∧
    ¬ (transmits (processFrame c T frame len tx_msg err clients).2 ≠ [] ∧
        broadcasts (processFrame c T frame len tx_msg err clients).2 ≠ []) ∧
    (broadcasts (processFrame c T frame len tx_msg err clients).2 = [] →
      writes (processFrame c T frame len tx_msg err clients).2 = []) := by
  by_cases h15 : len = 15
  · subst h15
    rw [processFrame_fifteen]
    have hi : (if err ≠ ESP_OK then [Call.debugPrintln (DebugLine.transmitFailed err)] else [])
        = [] ∨ (if err ≠ ESP_OK then [Call.debugPrintln (DebugLine.transmitFailed err)] else [])
        = [Call.debugPrintln (DebugLine.transmitFailed err)] := by
      by_cases he : err = ESP_OK <;> simp [he]
    rcases hi with hi | hi <;> rw [hi] <;>
      simp only [transmits_append, broadcasts_append, writes_append, transmits_debugPrintln,
        broadcasts_debugPrintln, writes_debugPrintln, transmits_display, broadcasts_display,
        writes_display, transmits_twai_transmit, broadcasts_twai_transmit,
        writes_twai_transmit, List.append_nil, List.nil_append] <;>
      simp [transmits, broadcasts, writes]
  · by_cases h5 : len = 5 ∧ frame 1 = 0x10
    · obtain ⟨hlen, h1⟩ := h5
      subst hlen
      rw [processFrame_query c T frame tx_msg err clients h1]
      split_ifs with h40 h60 hE0 hC0 <;>
        simp only [transmits_append, broadcasts_append, writes_append,
          transmits_debugPrintln, broadcasts_debugPrintln, writes_debugPrintln,
          transmits_broadcastFrame, broadcasts_broadcastFrame, List.append_nil,
          List.nil_append] <;>
        simp_all [transmits, broadcasts, writes]
    · rw [processFrame_other c T frame len tx_msg err clients h15 h5]
      have hb : broadcasts [Call.debugPrintln (DebugLine.frameDump (bytesOf frame len)),
          Call.debugPrintln (DebugLine.unknownLength len)] = [] := rfl
      have ht : transmits [Call.debugPrintln (DebugLine.frameDump (bytesOf frame len)),
          Call.debugPrintln (DebugLine.unknownLength len)] = [] := rfl
      have hw : writes [Call.debugPrintln (DebugLine.frameDump (bytesOf frame len)),
          Call.debugPrintln (DebugLine.unknownLength len)] = [] := rfl
      rw [hb, ht, hw]
      simp only [ne_eq, not_true_eq_false, false_iff, false_and, not_false_eq_true,
        true_and, h15, implies_true, and_true]
      intro hl
      exact h5 ⟨hl.1, hl.2.1⟩

/-! ## Further claims about the codec -/

/-- Two frames that agree on bytes 1, 3 and 4 and on bits 0 and 4..7 of byte 2 give the
same identifier. -/
theorem decodeId_congr (F G : Nat → Nat) (h1 : G 1 = F 1) (h3 : G 3 = F 3) (h4 : G 4 = F 4)
    (h2 : G 2 &&& 0xF1 = F 2 &&& 0xF1) : decodeId G = decodeId F := by
  have e0 : (0xF1 : Nat) &&& 0xF0 = 0xF0 := by decide
  have e1 : (0xF1 : Nat) &&& 0x01 = 0x01 := by decide
  have hF0 : ∀ x : Nat, x &&& 0xF0 = (x &&& 0xF1) &&& 0xF0 := by
    intro x
    rw [Nat.and_assoc, e0]
  have h01 : ∀ x : Nat, x &&& 0x01 = (x &&& 0xF1) &&& 0x01 := by
    intro x
    rw [Nat.and_assoc, e1]
  simp only [decodeId, h1, h3, h4]
  rw [hF0 (G 2), h01 (G 2), h2, ← hF0 (F 2), ← h01 (F 2)]

/-- C11: for every 15-byte input `F`, the message produced by `decodeFrame` has data length
code 8, the `extd` flag set, data bytes `F[5..12]` verbatim and the identifier
`F[1]*2^21 + (F[2] and 0xF0)*2^13 + (F[2] and 0x01)*2^16 + F[3]*2^8 + F[4]`, which is
below `2^29`; an input that differs from `F` only in bytes 0, 13, 14 and in bits 1..3 of
byte 2 gives the same result. -/
theorem decode_fields (F : Nat → Nat) (msg : twai_message_t)
    (hF : ∀ i, i < 15 → F i < 256) :
    (decodeFrame F 15 msg).1 = true ∧
    (decodeFrame F 15 msg).2.data_length_code = 8 ∧
    (decodeFrame F 15 msg).2.extd = true ∧
    (∀ i, i < 8 → (decodeFrame F 15 msg).2.data i = F (5 + i)) ∧
    (decodeFrame F 15 msg).2.identifier
      = F 1 * 2 ^ 21 + (F 2 &&& 0xF0) * 2 ^ 13 + (F 2 &&& 0x01) * 2 ^ 16
        + F 3 * 2 ^ 8 + F 4 ∧
    (decodeFrame F 15 msg).2.identifier < 2 ^ 29 ∧
    (∀ G : Nat → Nat, (∀ i, 1 ≤ i → i ≤ 12 → i ≠ 2 → G i = F i) →
      G 2 &&& 0xF1 = F 2 &&& 0xF1 → decodeFrame G 15 msg = decodeFrame F 15 msg) := by
  have hid := decodeId_eq F (hF 1 (by omega)) (hF 3 (by omega)) (hF 4 (by omega))
  have m1 : F 2 &&& 0xF0 = F 2 / 16 % 16 * 16 := and_mask (F 2) 4 4
  have m2 : F 2 &&& 0x01 = F 2 / 1 % 2 * 1 := and_mask (F 2) 1 0
  have b1 := hF 1 (by omega)
  have b3 := hF 3 (by omega)
  have b4 := hF 4 (by omega)
  simp only [decodeFrame, ne_eq, not_true_eq_false, if_false, true_and]
  refine ⟨?_, ?_, ?_, ?_⟩
  · intro i hi
    rw [decodeData_apply, if_pos hi]
  · rw [hid, m1, m2]
    omega
  · rw [hid]
    have h29 : (2 : Nat) ^ 29 = 536870912 := by norm_num
    omega
  · intro G hG h2
    have hidG : decodeId G = decodeId F :=
      decodeId_congr F G (hG 1 (by omega) (by omega) (by omega))
        (hG 3 (by omega) (by omega) (by omega)) (hG 4 (by omega) (by omega) (by omega)) h2
    have hdata : decodeData G msg.data = decodeData F msg.data := by
      funext j
      rw [decodeData_apply, decodeData_apply]
      by_cases hj : j < 8
      · rw [if_pos hj, if_pos hj]
        exact hG (5 + j) (by omega) (by omega) (by omega)
      · rw [if_neg hj, if_neg hj]
    rw [hidG, hdata]

/-- Instance of C11 at `sampleFrame`: its bytes are below 256 and the identifier decoded
from `12 3F 45 67` is `0x12 * 2^21 + 0x30 * 2^13 + 2^16 + 0x4567`. -/
theorem decode_fields_witness :
    (∀ i, i < 15 → sampleFrame i < 256) ∧
    (decodeFrame sampleFrame 15 sampleMsg).2.identifier = 0x2474567 ∧
    (decodeFrame sampleFrame 15 sampleMsg).2.identifier < 2 ^ 29 :=
  ⟨by decide, by decide, (decode_fields sampleFrame sampleMsg (by decide)).2.2.2.2.2.1⟩

/-- The checksum loop reads indices 1 to 12 only. -/
theorem checksumLoop_congr (g h : Nat → Nat) (hgh : ∀ i, 1 ≤ i → i ≤ 12 → g i = h i) :
    checksumLoop g = checksumLoop h := by
  refine checksum_foldl_congr g h _ 0 (fun i hi => ?_)
  rw [List.mem_range'_1] at hi
  exact hgh i (by omega) (by omega)

/-- Byte 13 of an encoded frame is the checksum accumulator run over that frame. -/
theorem encodeFrame_byte13 (c : Common) (M : twai_message_t) (outFrame : Nat → Nat) :
    (encodeFrame c M outFrame).2 13
      = u8 (checksumLoop (encodeFrame c M outFrame).2 % 256) := by
  obtain ⟨f12, hagree, h13⟩ := encodeFrame_checksum_byte c M outFrame
  have hc : checksumLoop f12 = checksumLoop (encodeFrame c M outFrame).2 :=
    checksumLoop_congr _ _ (fun i _ h12 => (hagree i (by omega) (by omega)).symm)
  rw [h13, hc]

/-- Bytes 0 to 12 and 14 of an encoded frame, where nothing of the array passed in is
left. -/
theorem encodeFrame_apply_lt (c : Common) (M : twai_message_t) (outFrame : Nat → Nat)
    (j : Nat) (hj : j < 15) (h13 : j ≠ 13) :
    (encodeFrame c M outFrame).2 j =
      if j = 14 then c.HAPCAN_END_BYTE
      else if 5 ≤ j ∧ j < 13 then
        (if j - 5 < M.data_length_code then M.data (j - 5) else 0)
      else if j = 4 then u8 (M.identifier &&& 0xff)
      else if j = 3 then u8 ((M.identifier &&& 0xff00) >>> 8)
      else if j = 2 then
        u8 (((M.identifier &&& 0x1e0000) >>> 13) ||| ((M.identifier &&& 0x10000) >>> 16))
      else if j = 1 then u8 ((M.identifier &&& 0x1fe00000) >>> 21)
      else c.HAPCAN_START_BYTE := by
  rw [encodeFrame_apply]
  split_ifs <;> first | rfl | omega

/-- Two encoded frames that agree on bytes 1 to 12 have the same byte 13. -/
theorem encodeFrame_byte13_congr (c : Common) (M N : twai_message_t) (f g : Nat → Nat)
    (h : ∀ i, 1 ≤ i → i ≤ 12 → (encodeFrame c N g).2 i = (encodeFrame c M f).2 i) :
    (encodeFrame c N g).2 13 = (encodeFrame c M f).2 13 := by
  have hc := checksumLoop_congr (encodeFrame c N g).2 (encodeFrame c M f).2 h
  rw [encodeFrame_byte13 c N g, encodeFrame_byte13 c M f, hc]

/-- Bytes 0 to 14 of an encoded frame do not depend on the array passed in. -/
theorem encodeFrame_fresh (c : Common) (M : twai_message_t) (f g : Nat → Nat) (j : Nat)
    (hj : j < 15) : (encodeFrame c M g).2 j = (encodeFrame c M f).2 j := by
  have hlt : ∀ i, i < 15 → i ≠ 13 → (encodeFrame c M g).2 i = (encodeFrame c M f).2 i := by
    intro i hi h13
    rw [encodeFrame_apply_lt c M g i hi h13, encodeFrame_apply_lt c M f i hi h13]
  by_cases h13 : j = 13
  · subst h13
    exact encodeFrame_byte13_congr c M M f g (fun i _ h12 => hlt i (by omega) (by omega))
  · exact hlt j hj h13

/-- The encoded frame reads `data` at indices 0 to 7 only. -/
theorem encodeFrame_data_congr (c : Common) (M N : twai_message_t) (f : Nat → Nat)
    (hid : N.identifier = M.identifier) (hdlc : N.data_length_code = M.data_length_code)
    (hdata : ∀ i, i < 8 → N.data i = M.data i) (j : Nat) :
    (encodeFrame c N f).2 j = (encodeFrame c M f).2 j := by
  have hlt : ∀ i, i < 15 → i ≠ 13 → (encodeFrame c N f).2 i = (encodeFrame c M f).2 i := by
    intro i hi h13
    rw [encodeFrame_apply_lt c N f i hi h13, encodeFrame_apply_lt c M f i hi h13, hid, hdlc]
    by_cases h5 : 5 ≤ i ∧ i < 13
    · have hd := hdata (i - 5) (by omega)
      simp only [h5, and_self, if_true, hd]
    · simp only [h5, if_false]
  by_cases hj : j < 15
  · by_cases h13 : j = 13
    · subst h13
      exact encodeFrame_byte13_congr c M N f f (fun i _ h12 => hlt i (by omega) (by omega))
    · exact hlt j hj h13
  · rw [encodeFrame_apply, encodeFrame_apply]
    have h14 : j ≠ 14 := by omega
    have h13 : j ≠ 13 := by omega
    have h5 : ¬ (5 ≤ j ∧ j < 13) := by omega
    have h4 : j ≠ 4 := by omega
    have h3 : j ≠ 3 := by omega
    have h2 : j ≠ 2 := by omega
    have h1 : j ≠ 1 := by omega
    have h0 : j ≠ 0 := by omega
    simp only [h14, h13, h5, h4, h3, h2, h1, h0, if_false]

/-- C12: for every CAN message `M`, whatever its data length code, `encodeFrame` returns
15 and writes exactly bytes 0..14 of the output: an index from 15 on keeps its value, and
bytes 0..14 do not depend on what the array held before. Byte 0 is the start marker,
byte 14 the end marker, and for `i` in 0..7 byte `5 + i` is `M.data[i]` when
`i < M.data_length_code` and 0 otherwise. A message that differs from `M` only in
`data` beyond index 7 gives the same result. -/
theorem encode_layout (c : Common) (M : twai_message_t) (outFrame : Nat → Nat) :
    (encodeFrame c M outFrame).1 = 15 ∧
    (∀ j, 15 ≤ j → (encodeFrame c M outFrame).2 j = outFrame j) ∧
    (∀ (other : Nat → Nat) (j : Nat), j < 15 →
      (encodeFrame c M other).2 j = (encodeFrame c M outFrame).2 j) ∧
    (encodeFrame c M outFrame).2 0 = c.HAPCAN_START_BYTE ∧
    (encodeFrame c M outFrame).2 14 = c.HAPCAN_END_BYTE ∧
    (∀ i, i < 8 → (encodeFrame c M outFrame).2 (5 + i)
      = if i < M.data_length_code then M.data i else 0) ∧
    (∀ N : twai_message_t, N.identifier = M.identifier →
      N.data_length_code = M.data_length_code → (∀ i, i < 8 → N.data i = M.data i) →
      encodeFrame c N outFrame = encodeFrame c M outFrame) := by
  refine ⟨rfl, ?_, fun other j hj => encodeFrame_fresh c M outFrame other j hj, ?_, ?_, ?_, ?_⟩
  · intro j hj
    rw [encodeFrame_apply]
    have h14 : j ≠ 14 := by omega
    have h13 : j ≠ 13 := by omega
    have h5 : ¬ (5 ≤ j ∧ j < 13) := by omega
    have h4 : j ≠ 4 := by omega
    have h3 : j ≠ 3 := by omega
    have h2 : j ≠ 2 := by omega
    have h1 : j ≠ 1 := by omega
    have h0 : j ≠ 0 := by omega
    simp only [h14, h13, h5, h4, h3, h2, h1, h0, if_false]
  · rw [encodeFrame_apply_lt c M outFrame 0 (by omega) (by omega)]
    simp
  · rw [encodeFrame_apply_lt c M outFrame 14 (by omega) (by omega)]
    simp
  · intro i hi
    have h5 : 5 ≤ 5 + i ∧ 5 + i < 13 := by omega
    have h14 : 5 + i ≠ 14 := by omega
    have hsub : 5 + i - 5 = i := by omega
    rw [encodeFrame_apply_lt c M outFrame (5 + i) (by omega) (by omega)]
    simp only [h14, if_false, h5, and_self, if_true, hsub]
  · intro N hid hdlc hdata
    refine Prod.ext rfl ?_
    funext j
    exact encodeFrame_data_congr c M N outFrame hid hdlc hdata j

/-! ## Runs of the parser over a frame -/

namespace HapcanParser

theorem returns_take (c : Common) (p : HapcanParser) (s : List Nat) (n : Nat) :
    returns c p (s.take n) = (returns c p s).take n := by
  induction s generalizing p n with
  | nil => simp [returns]
  | cons b s ih =>
    cases n with
    | zero => simp [returns]
    | succ n => simp [returns, ih]

/-- A parser collecting at index `i` that is fed bytes up to index 15, none of them the
end marker at index 4, 12 or 14, returns false on each, buffers them all and stays in
`COLLECTING`. -/
theorem collect_run (c : Common) (t : List Nat) (q : HapcanParser)
    (hs : q.state = State.COLLECTING) (hi : q.index + t.length ≤ 15)
    (hno : ∀ j, j < t.length → (q.index + j = 4 ∨ q.index + j = 12 ∨ q.index + j = 14) →
      t[j]? ≠ some c.HAPCAN_END_BYTE) :
    returns c q t = List.replicate t.length false ∧
    (feed c q t).state = State.COLLECTING ∧
    (feed c q t).index = q.index + t.length ∧
    bytesOf (feed c q t).buffer (q.index + t.length) = bytesOf q.buffer q.index ++ t := by
  induction t generalizing q with
  | nil => exact ⟨rfl, hs, rfl, by simp [feed_nil]⟩
  | cons b t ih =>
    simp only [List.length_cons] at hi hno ⊢
    have h0 := hno 0 (by omega)
    have hstep : parseByte c q b
        = (false, { state := State.COLLECTING, buffer := store q.buffer q.index b,
                    index := q.index + 1 }) := by
      rw [parseByte_collecting c q b hs (by omega)]
      have h1 : ¬ ((q.index = 4 ∨ q.index = 12 ∨ q.index = 14) ∧ b = c.HAPCAN_END_BYTE) := by
        rintro ⟨hidx, hb⟩
        exact h0 (by simpa using hidx) (by simp [hb])
      have h2 : q.index ≠ 15 := by omega
      rw [if_neg h1, if_neg h2]
    obtain ⟨r1, r2, r3, r4⟩ := ih
      { state := State.COLLECTING, buffer := store q.buffer q.index b, index := q.index + 1 }
      rfl (by show q.index + 1 + t.length ≤ 15; omega)
      (by
        intro j hj hidx
        have := hno (j + 1) (by omega) (by
          have e : q.index + 1 + j = q.index + (j + 1) := by omega
          rw [← e]; exact hidx)
        simpa using this)
    rw [returns, feed_cons, hstep]
    refine ⟨by rw [r1]; rfl, r2, ?_, ?_⟩
    · rw [r3]
      show q.index + 1 + t.length = q.index + (t.length + 1)
      omega
    · have e : q.index + (t.length + 1) = q.index + 1 + t.length := by omega
      rw [e]
      have r4' : bytesOf (feed c _ t).buffer (q.index + 1 + t.length)
          = bytesOf (store q.buffer q.index b) (q.index + 1) ++ t := r4
      rw [r4', bytesOf_store_succ]
      simp

end HapcanParser

namespace HapcanParser

/-- From `WAIT`, the start marker and up to 14 bytes, none of them the end marker at
offset 4, 12 or 14: every call returns false and the buffer holds them all. -/
theorem start_run (c : Common) (p : HapcanParser) (hw : p.state = State.WAIT)
    (body : List Nat) (hlen : body.length ≤ 14)
    (hno : ∀ j, j < body.length → (j + 1 = 4 ∨ j + 1 = 12 ∨ j + 1 = 14) →
      body[j]? ≠ some c.HAPCAN_END_BYTE) :
    returns c p (c.HAPCAN_START_BYTE :: body) = List.replicate (body.length + 1) false ∧
    (feed c p (c.HAPCAN_START_BYTE :: body)).state = State.COLLECTING ∧
    (feed c p (c.HAPCAN_START_BYTE :: body)).index = body.length + 1 ∧
    bytesOf (feed c p (c.HAPCAN_START_BYTE :: body)).buffer (body.length + 1)
      = c.HAPCAN_START_BYTE :: body := by
  obtain ⟨r1, r2, r3, r4⟩ := collect_run c body
    { state := State.COLLECTING, buffer := store p.buffer 0 c.HAPCAN_START_BYTE, index := 1 }
    rfl (by show 1 + body.length ≤ 15; omega)
    (by
      intro j hj hidx
      have e : ∀ n, (1 + j = n) ↔ (j + 1 = n) := fun n => by omega
      exact hno j hj (by
        rcases hidx with h | h | h
        · exact Or.inl ((e 4).mp h)
        · exact Or.inr (Or.inl ((e 12).mp h))
        · exact Or.inr (Or.inr ((e 14).mp h))))
  rw [returns, feed_cons, parseByte_wait_start c p hw]
  have e : (1 : Nat) + body.length = body.length + 1 := by omega
  refine ⟨by rw [r1]; rfl, r2, by rw [r3]; exact e, ?_⟩
  rw [← e]
  have r4' : bytesOf (feed c _ body).buffer (1 + body.length)
      = bytesOf (store p.buffer 0 c.HAPCAN_START_BYTE) 1 ++ body := r4
  rw [r4', bytesOf_store_succ]
  rfl

/-- From `WAIT`, a frame whose end marker arrives at offset 4, 12 or 14, with no end
marker at an earlier one of these offsets: true is returned on the last byte only, the
parser is back in `WAIT` and reports exactly the frame. -/
theorem frame_run (c : Common) (p : HapcanParser) (hw : p.state = State.WAIT)
    (body : List Nat)
    (hk : body.length + 1 = 4 ∨ body.length + 1 = 12 ∨ body.length + 1 = 14)
    (hno : ∀ j, j < body.length → (j + 1 = 4 ∨ j + 1 = 12) →
      body[j]? ≠ some c.HAPCAN_END_BYTE) :
    returns c p (c.HAPCAN_START_BYTE :: body ++ [c.HAPCAN_END_BYTE])
      = List.replicate (body.length + 1) false ++ [true] ∧
    (feed c p (c.HAPCAN_START_BYTE :: body ++ [c.HAPCAN_END_BYTE])).state = State.WAIT ∧
    (feed c p (c.HAPCAN_START_BYTE :: body ++ [c.HAPCAN_END_BYTE])).index
      = body.length + 2 ∧
    bytesOf (feed c p (c.HAPCAN_START_BYTE :: body ++ [c.HAPCAN_END_BYTE])).buffer
        (body.length + 2)
      = c.HAPCAN_START_BYTE :: body ++ [c.HAPCAN_END_BYTE] := by
  obtain ⟨r1, r2, r3, r4⟩ := start_run c p hw body (by omega)
    (by
      intro j hj hidx
      rcases hidx with h | h | h
      · exact hno j hj (Or.inl h)
      · exact hno j hj (Or.inr h)
      · omega)
  have hidx : (feed c p (c.HAPCAN_START_BYTE :: body)).index = 4 ∨
      (feed c p (c.HAPCAN_START_BYTE :: body)).index = 12 ∨
      (feed c p (c.HAPCAN_START_BYTE :: body)).index = 14 := by
    rw [r3]; exact hk
  have hstep : parseByte c (feed c p (c.HAPCAN_START_BYTE :: body)) c.HAPCAN_END_BYTE
      = (true, { state := State.WAIT,
                 buffer := store (feed c p (c.HAPCAN_START_BYTE :: body)).buffer
                   (feed c p (c.HAPCAN_START_BYTE :: body)).index c.HAPCAN_END_BYTE,
                 index := (feed c p (c.HAPCAN_START_BYTE :: body)).index + 1 }) := by
    rw [parseByte_collecting c _ _ r2 (by omega), if_pos ⟨hidx, rfl⟩]
  have happ : c.HAPCAN_START_BYTE :: body ++ [c.HAPCAN_END_BYTE]
      = (c.HAPCAN_START_BYTE :: body) ++ [c.HAPCAN_END_BYTE] := rfl
  have hf : feed c (feed c p (c.HAPCAN_START_BYTE :: body)) [c.HAPCAN_END_BYTE]
      = (parseByte c (feed c p (c.HAPCAN_START_BYTE :: body)) c.HAPCAN_END_BYTE).2 := rfl
  have hr : returns c (feed c p (c.HAPCAN_START_BYTE :: body)) [c.HAPCAN_END_BYTE]
      = [(parseByte c (feed c p (c.HAPCAN_START_BYTE :: body)) c.HAPCAN_END_BYTE).1] := rfl
  rw [happ, returns_append, feed_append, r1, hf, hr, hstep]
  refine ⟨rfl, rfl, by show _ + 1 = _; rw [r3], ?_⟩
  show bytesOf (store _ (feed c p (c.HAPCAN_START_BYTE :: body)).index _) _ = _
  rw [r3, bytesOf_store_succ, r4]

/-- From `WAIT`, the start marker and 15 more bytes with no end marker at offset 4, 12
or 14: every call returns false and the last one leaves the parser in `WAIT` with
index 0. -/
theorem overflow_run (c : Common) (p : HapcanParser) (hw : p.state = State.WAIT)
    (body : List Nat) (b15 : Nat) (hlen : body.length = 14)
    (hno : ∀ j, j < body.length → (j + 1 = 4 ∨ j + 1 = 12 ∨ j + 1 = 14) →
      body[j]? ≠ some c.HAPCAN_END_BYTE) :
    returns c p (c.HAPCAN_START_BYTE :: body ++ [b15]) = List.replicate 16 false ∧
    (feed c p (c.HAPCAN_START_BYTE :: body ++ [b15])).state = State.WAIT ∧
    (feed c p (c.HAPCAN_START_BYTE :: body ++ [b15])).index = 0 := by
  obtain ⟨r1, r2, r3, _⟩ := start_run c p hw body (by omega) hno
  have hstep : parseByte c (feed c p (c.HAPCAN_START_BYTE :: body)) b15
      = (false, { state := State.WAIT,
                  buffer := store (feed c p (c.HAPCAN_START_BYTE :: body)).buffer
                    (feed c p (c.HAPCAN_START_BYTE :: body)).index b15,
                  index := 0 }) := by
    have h1 : ¬ (((feed c p (c.HAPCAN_START_BYTE :: body)).index = 4 ∨
        (feed c p (c.HAPCAN_START_BYTE :: body)).index = 12 ∨
        (feed c p (c.HAPCAN_START_BYTE :: body)).index = 14) ∧ b15 = c.HAPCAN_END_BYTE) := by
      rw [r3]; omega
    have h2 : (feed c p (c.HAPCAN_START_BYTE :: body)).index = 15 := by rw [r3]; omega
    rw [parseByte_collecting c _ _ r2 (by omega), if_neg h1, if_pos h2]
  have happ : c.HAPCAN_START_BYTE :: body ++ [b15]
      = (c.HAPCAN_START_BYTE :: body) ++ [b15] := rfl
  have hf : feed c (feed c p (c.HAPCAN_START_BYTE :: body)) [b15]
      = (parseByte c (feed c p (c.HAPCAN_START_BYTE :: body)) b15).2 := rfl
  have hr : returns c (feed c p (c.HAPCAN_START_BYTE :: body)) [b15]
      = [(parseByte c (feed c p (c.HAPCAN_START_BYTE :: body)) b15).1] := rfl
  rw [happ, returns_append, feed_append, r1, hf, hr, hstep, hlen]
  exact ⟨rfl, rfl, rfl⟩

end HapcanParser

namespace HapcanParser

/-- C13: a parser in `WAIT` receives the start marker and then bytes `b1, b2, ...`.
When `b_k` is the end marker, `k` being the least of 4, 12, 14 for which it is (`body`
holds `b1 .. b_(k-1)`, which may contain end markers at any other offset), `parseByte`
returns false up to `b_(k-1)` and true on `b_k`, and the frame reported is
`[start, b1, ..., b_k]`, of length `k + 1`. When none of `b4`, `b12`, `b14` is the end
marker, every call up to and including the one on `b15` returns false, whatever `b15`
is, and the parser is left in `WAIT` with index 0. -/
theorem first_terminator (c : Common) (p : HapcanParser) (hw : p.state = State.WAIT) :
    (∀ body : List Nat,
      (body.length + 1 = 4 ∨ body.length + 1 = 12 ∨ body.length + 1 = 14) →
      (∀ j, j < body.length → (j + 1 = 4 ∨ j + 1 = 12) →
        body[j]? ≠ some c.HAPCAN_END_BYTE) →
      returns c p (c.HAPCAN_START_BYTE :: body ++ [c.HAPCAN_END_BYTE])
        = List.replicate (body.length + 1) false ++ [true] ∧
      getFrameLength (feed c p (c.HAPCAN_START_BYTE :: body ++ [c.HAPCAN_END_BYTE]))
        = body.length + 2 ∧
      bytesOf (getFrame (feed c p (c.HAPCAN_START_BYTE :: body ++ [c.HAPCAN_END_BYTE])))
          (body.length + 2)
        = c.HAPCAN_START_BYTE :: body ++ [c.HAPCAN_END_BYTE]) ∧
    (∀ (body : List Nat) (b15 : Nat), body.length = 14 →
      body[3]? ≠ some c.HAPCAN_END_BYTE → body[11]? ≠ some c.HAPCAN_END_BYTE →
      body[13]? ≠ some c.HAPCAN_END_BYTE →
      returns c p (c.HAPCAN_START_BYTE :: body ++ [b15]) = List.replicate 16 false ∧
      (feed c p (c.HAPCAN_START_BYTE :: body ++ [b15])).state = State.WAIT ∧
      (feed c p (c.HAPCAN_START_BYTE :: body ++ [b15])).index = 0) := by
  constructor
  · intro body hk hno
    obtain ⟨r1, _, r3, r4⟩ := frame_run c p hw body hk hno
    exact ⟨r1, r3, r4⟩
  · intro body b15 hlen h3 h11 h13
    refine overflow_run c p hw body b15 hlen ?_
    intro j _ hidx
    rcases hidx with h | h | h
    · have e : j = 3 := by omega
      rw [e]; exact h3
    · have e : j = 11 := by omega
      rw [e]; exact h11
    · have e : j = 13 := by omega
      rw [e]; exact h13

/-- Instance of C13 on a fresh parser: after the start marker, an end marker at offset 2
is buffered, offset 4 holds another byte, and the end marker at offset 12 completes a
13-byte frame. -/
theorem first_terminator_witness :
    (init (fun _ => 0)).state = State.WAIT ∧
    returns hapcanCommon (init (fun _ => 0))
        (hapcanCommon.HAPCAN_START_BYTE :: [1, 0xA5, 3, 4, 5, 6, 7, 8, 9, 10, 11]
          ++ [hapcanCommon.HAPCAN_END_BYTE])
      = List.replicate 12 false ++ [true] ∧
    getFrameLength (feed hapcanCommon (init (fun _ => 0))
        (hapcanCommon.HAPCAN_START_BYTE :: [1, 0xA5, 3, 4, 5, 6, 7, 8, 9, 10, 11]
          ++ [hapcanCommon.HAPCAN_END_BYTE])) = 13 :=
  ⟨rfl,
    ((first_terminator hapcanCommon (init (fun _ => 0)) rfl).1
      [1, 0xA5, 3, 4, 5, 6, 7, 8, 9, 10, 11] (by decide) (by decide)).1,
    ((first_terminator hapcanCommon (init (fun _ => 0)) rfl).1
      [1, 0xA5, 3, 4, 5, 6, 7, 8, 9, 10, 11] (by decide) (by decide)).2.1⟩

end HapcanParser

/-! ## The canned replies -/

theorem hardwareTypeResponse_shape (c : Common) :
    CannedReply c 0x40 (hardwareTypeResponse c) :=
  ⟨rfl, rfl, rfl, rfl, rfl, by simp [hardwareTypeResponse]⟩

theorem firmwareTypeResponse_shape (c : Common) :
    CannedReply c 0x60 (firmwareTypeResponse c) :=
  ⟨rfl, rfl, rfl, rfl, rfl, by simp [firmwareTypeResponse]⟩

theorem descriptionResponse1_shape (c : Common) :
    CannedReply c 0xE0 (descriptionResponse1 c) :=
  ⟨rfl, rfl, rfl, rfl, rfl, by simp [descriptionResponse1]⟩

theorem descriptionResponse2_shape (c : Common) :
    CannedReply c 0xE0 (descriptionResponse2 c) :=
  ⟨rfl, rfl, rfl, rfl, rfl, by simp [descriptionResponse2]⟩

theorem supplyVoltageResponse_shape (c : Common) :
    CannedReply c 0xC0 (supplyVoltageResponse c) :=
  ⟨rfl, rfl, rfl, rfl, rfl, by simp [supplyVoltageResponse]⟩

/-- The frames broadcast by `processFrame` on a 5-byte frame addressed to 0x10, by
selector. -/
theorem broadcasts_query {W : Type} (c : Common) (T : Transport W) (frame : Nat → Nat)
    (tx_msg : twai_message_t) (err : Nat) (clients : Nat → SocketConnection W)
    (h1 : frame 1 = 0x10) :
    broadcasts (processFrame c T frame 5 tx_msg err clients).2 =
      if frame 2 = 0x40 then [hardwareTypeResponse c]
      else if frame 2 = 0x60 then [firmwareTypeResponse c]
      else if frame 2 = 0xE0 then [descriptionResponse1 c, descriptionResponse2 c]
      else if frame 2 = 0xC0 then [supplyVoltageResponse c]
      else [] := by
  rw [processFrame_query c T frame tx_msg err clients h1]
  split_ifs <;>
    simp only [broadcasts_append, broadcasts_broadcastFrame, broadcasts_debugPrintln,
      hardwareTypeResponse_bytes, firmwareTypeResponse_bytes, descriptionResponse1_bytes,
      descriptionResponse2_bytes, supplyVoltageResponse_bytes, List.nil_append,
      List.append_nil]
  rfl

/-- C14: each of the five canned replies built in `processFrame` (hardware type, firmware
type, the two description frames, supply voltage) has 13 bytes, the start marker as
byte 0 and the end marker as byte 12, byte 1 equal to 0x10, byte 2 equal to the request
selector plus 1 and byte 11 equal to the sum of bytes 1 to 10 modulo 256; and every frame
that `processFrame` broadcasts on a 5-byte request is one of them, for the selector in
byte 2 of the request. -/
theorem canned_replies {W : Type} (c : Common) (T : Transport W) (frame : Nat → Nat)
    (tx_msg : twai_message_t) (err : Nat) (clients : Nat → SocketConnection W) :
    CannedReply c 0x40 (hardwareTypeResponse c) ∧
    CannedReply c 0x60 (firmwareTypeResponse c) ∧
    CannedReply c 0xE0 (descriptionResponse1 c) ∧
    CannedReply c 0xE0 (descriptionResponse2 c) ∧
    CannedReply c 0xC0 (supplyVoltageResponse c) ∧
    (∀ r, r ∈ broadcasts (processFrame c T frame 5 tx_msg err clients).2 →
      CannedReply c (frame 2) r) := by
  refine ⟨hardwareTypeResponse_shape c, firmwareTypeResponse_shape c,
    descriptionResponse1_shape c, descriptionResponse2_shape c,
    supplyVoltageResponse_shape c, ?_⟩
  intro r hr
  by_cases h1 : frame 1 = 0x10
  · rw [broadcasts_query c T frame tx_msg err clients h1] at hr
    split_ifs at hr with h40 h60 hE0 hC0
    · rw [List.mem_singleton] at hr
      rw [hr, h40]; exact hardwareTypeResponse_shape c
    · rw [List.mem_singleton] at hr
      rw [hr, h60]; exact firmwareTypeResponse_shape c
    · simp only [List.mem_cons, List.mem_singleton, List.not_mem_nil, or_false] at hr
      rcases hr with hr | hr
      · rw [hr, hE0]; exact descriptionResponse1_shape c
      · rw [hr, hE0]; exact descriptionResponse2_shape c
    · rw [List.mem_singleton] at hr
      rw [hr, hC0]; exact supplyVoltageResponse_shape c
    · cases hr
  · have h5 : ¬ ((5 : Nat) = 5 ∧ frame 1 = 0x10) := fun h => h1 h.2
    rw [processFrame_other c T frame 5 tx_msg err clients (by omega) h5] at hr
    cases hr

/-! ## Frames in a stream -/

namespace HapcanParser

/-- The first true return is at one position only. -/
theorem firstTrueAt_unique (c : Common) (p : HapcanParser) (s : List Nat) (n m : Nat)
    (hn : firstTrueAt c p s n) (hm : firstTrueAt c p s m) : n = m := by
  have key : ∀ a b, a < b → firstTrueAt c p s a → firstTrueAt c p s b → False := by
    intro a b hab ha hb
    unfold firstTrueAt at ha hb
    rw [returns_take] at ha hb
    have h1 : ((returns c p s).take (b + 1)).take (a + 1)
        = (List.replicate b false ++ [true]).take (a + 1) := by rw [hb]
    rw [List.take_take, Nat.min_eq_left (by omega), ha,
      List.take_append_of_le_length (by simp; omega), List.take_replicate,
      Nat.min_eq_left (by omega), List.replicate_succ'] at h1
    have h2 := List.append_cancel_left h1
    simp at h2
  rcases Nat.lt_trichotomy n m with h | h | h
  · exact (key n m h hn hm).elim
  · exact h
  · exact (key m n h hm hn).elim

/-- From `WAIT`, the start marker followed by bytes with the end marker at offset `k`, the
least of 4, 12, 14 where it stands: true is returned on that byte and on none before, and
the frame reported is the input up to it. -/
theorem frame_at (c : Common) (p : HapcanParser) (hw : p.state = State.WAIT)
    (rest : List Nat) (k : Nat) (hk : k = 4 ∨ k = 12 ∨ k = 14)
    (hend : rest[k - 1]? = some c.HAPCAN_END_BYTE)
    (hno : ∀ j, (j = 4 ∨ j = 12) → j < k → rest[j - 1]? ≠ some c.HAPCAN_END_BYTE) :
    returns c p ((c.HAPCAN_START_BYTE :: rest).take (k + 1))
      = List.replicate k false ++ [true] ∧
    (feed c p ((c.HAPCAN_START_BYTE :: rest).take (k + 1))).state = State.WAIT ∧
    (feed c p ((c.HAPCAN_START_BYTE :: rest).take (k + 1))).index = k + 1 ∧
    bytesOf (feed c p ((c.HAPCAN_START_BYTE :: rest).take (k + 1))).buffer (k + 1)
      = (c.HAPCAN_START_BYTE :: rest).take (k + 1) := by
  have hk1 : k - 1 + 1 = k := by omega
  have hlt : k - 1 < rest.length := by
    rcases Nat.lt_or_ge (k - 1) rest.length with h | h
    · exact h
    · rw [List.getElem?_eq_none h] at hend
      cases hend
  have htake : (c.HAPCAN_START_BYTE :: rest).take (k + 1)
      = c.HAPCAN_START_BYTE :: rest.take (k - 1) ++ [c.HAPCAN_END_BYTE] := by
    rw [List.take_succ_cons]
    nth_rewrite 1 [← hk1]
    rw [List.take_succ, hend]
    rfl
  have hblen : (rest.take (k - 1)).length = k - 1 := by
    rw [List.length_take]; omega
  obtain ⟨r1, r2, r3, r4⟩ := frame_run c p hw (rest.take (k - 1))
    (by rw [hblen]; omega)
    (by
      intro j hj hidx
      rw [hblen] at hj
      rw [List.getElem?_take_of_lt hj]
      have := hno (j + 1) hidx (by omega)
      simpa using this)
  rw [hblen] at r1 r3 r4
  rw [htake]
  have e1 : k - 1 + 1 = k := hk1
  have e2 : k - 1 + 2 = k + 1 := by omega
  rw [e1] at r1
  rw [e2] at r3 r4
  exact ⟨r1, r2, r3, r4⟩

end HapcanParser

namespace HapcanParser

/-- The 15 bytes written by `encodeFrame` begin with the start marker and end with the
end marker. -/
theorem encodeFrame_markers (c : Common) (M : twai_message_t) (outFrame : Nat → Nat) :
    (bytesOf (encodeFrame c M outFrame).2 15).length = 15 ∧
    (bytesOf (encodeFrame c M outFrame).2 15)[0]? = some c.HAPCAN_START_BYTE ∧
    (bytesOf (encodeFrame c M outFrame).2 15)[14]? = some c.HAPCAN_END_BYTE := by
  refine ⟨bytesOf_length _ _, ?_, ?_⟩
  · rw [bytesOf_getElem? _ 15 0 (by omega),
      encodeFrame_apply_lt c M outFrame 0 (by omega) (by omega)]
    simp
  · rw [bytesOf_getElem? _ 15 14 (by omega),
      encodeFrame_apply_lt c M outFrame 14 (by omega) (by omega)]
    simp

/-- C15: let `F` be a 15-byte sequence that begins with the start marker and ends with
the end marker, fed to a fresh parser. The first true return is on the 15th byte if and
only if neither `F[4]` nor `F[12]` is the end marker, and the frame then reported is `F`.
When `F[4]` is the end marker the first true return is on the 5th byte, with the first
5 bytes as frame; otherwise, when `F[12]` is the end marker, it is on the 13th byte,
with the first 13 bytes as frame. The 15 bytes written by `encodeFrame` are such an `F`. -/
theorem fifteen_byte_frame (c : Common) (buffer : Nat → Nat) (F : List Nat)
    (hlen : F.length = 15) (h0 : F[0]? = some c.HAPCAN_START_BYTE)
    (h14 : F[14]? = some c.HAPCAN_END_BYTE) :
    (firstTrueAt c (init buffer) F 14 ↔
      (F[4]? ≠ some c.HAPCAN_END_BYTE ∧ F[12]? ≠ some c.HAPCAN_END_BYTE)) ∧
    (F[4]? ≠ some c.HAPCAN_END_BYTE → F[12]? ≠ some c.HAPCAN_END_BYTE →
      getFrameLength (feed c (init buffer) F) = 15 ∧
      bytesOf (getFrame (feed c (init buffer) F)) 15 = F) ∧
    (F[4]? = some c.HAPCAN_END_BYTE →
      firstTrueAt c (init buffer) F 4 ∧
      getFrameLength (feed c (init buffer) (F.take 5)) = 5 ∧
      bytesOf (getFrame (feed c (init buffer) (F.take 5))) 5 = F.take 5) ∧
    (F[4]? ≠ some c.HAPCAN_END_BYTE → F[12]? = some c.HAPCAN_END_BYTE →
      firstTrueAt c (init buffer) F 12 ∧
      getFrameLength (feed c (init buffer) (F.take 13)) = 13 ∧
      bytesOf (getFrame (feed c (init buffer) (F.take 13))) 13 = F.take 13) ∧
    (∀ (M : twai_message_t) (outFrame : Nat → Nat),
      (bytesOf (encodeFrame c M outFrame).2 15).length = 15 ∧
      (bytesOf (encodeFrame c M outFrame).2 15)[0]? = some c.HAPCAN_START_BYTE ∧
      (bytesOf (encodeFrame c M outFrame).2 15)[14]? = some c.HAPCAN_END_BYTE) := by
  cases F with
  | nil => simp at hlen
  | cons x rest =>
    simp only [List.getElem?_cons_zero, Option.some.injEq] at h0
    subst h0
    simp only [List.getElem?_cons_succ] at h14 ⊢
    have hfull : (c.HAPCAN_START_BYTE :: rest).take 15 = c.HAPCAN_START_BYTE :: rest :=
      List.take_of_length_le (by omega)
    have case15 : rest[3]? ≠ some c.HAPCAN_END_BYTE → rest[11]? ≠ some c.HAPCAN_END_BYTE →
        firstTrueAt c (init buffer) (c.HAPCAN_START_BYTE :: rest) 14 ∧
        getFrameLength (feed c (init buffer) (c.HAPCAN_START_BYTE :: rest)) = 15 ∧
        bytesOf (getFrame (feed c (init buffer) (c.HAPCAN_START_BYTE :: rest))) 15
          = c.HAPCAN_START_BYTE :: rest := by
      intro h4 h12
      obtain ⟨r1, _, r3, r4⟩ := frame_at c (init buffer) rfl rest 14 (by omega) h14
        (by
          intro j hj _
          rcases hj with h | h
          · rw [h]; exact h4
          · rw [h]; exact h12)
      rw [hfull] at r3 r4
      exact ⟨r1, r3, r4⟩
    have case5 : rest[3]? = some c.HAPCAN_END_BYTE →
        firstTrueAt c (init buffer) (c.HAPCAN_START_BYTE :: rest) 4 ∧
        getFrameLength (feed c (init buffer) ((c.HAPCAN_START_BYTE :: rest).take 5)) = 5 ∧
        bytesOf (getFrame (feed c (init buffer) ((c.HAPCAN_START_BYTE :: rest).take 5))) 5
          = (c.HAPCAN_START_BYTE :: rest).take 5 := by
      intro h4
      obtain ⟨r1, _, r3, r4⟩ := frame_at c (init buffer) rfl rest 4 (by omega) h4
        (by intro j hj hlt; omega)
      exact ⟨r1, r3, r4⟩
    have case13 : rest[3]? ≠ some c.HAPCAN_END_BYTE → rest[11]? = some c.HAPCAN_END_BYTE →
        firstTrueAt c (init buffer) (c.HAPCAN_START_BYTE :: rest) 12 ∧
        getFrameLength (feed c (init buffer) ((c.HAPCAN_START_BYTE :: rest).take 13)) = 13 ∧
        bytesOf (getFrame (feed c (init buffer) ((c.HAPCAN_START_BYTE :: rest).take 13))) 13
          = (c.HAPCAN_START_BYTE :: rest).take 13 := by
      intro h4 h12
      obtain ⟨r1, _, r3, r4⟩ := frame_at c (init buffer) rfl rest 12 (by omega) h12
        (by
          intro j hj hlt
          rcases hj with h | h
          · rw [h]; exact h4
          · omega)
      exact ⟨r1, r3, r4⟩
    refine ⟨⟨?_, fun h => (case15 h.1 h.2).1⟩, fun h4 h12 => (case15 h4 h12).2,
      case5, case13, fun M outFrame => encodeFrame_markers c M outFrame⟩
    intro h
    by_cases h4 : rest[3]? = some c.HAPCAN_END_BYTE
    · have := firstTrueAt_unique c _ _ 14 4 h (case5 h4).1
      omega
    · by_cases h12 : rest[11]? = some c.HAPCAN_END_BYTE
      · have := firstTrueAt_unique c _ _ 14 12 h (case13 h4 h12).1
        omega
      · exact ⟨h4, h12⟩

/-- Instance of C15 on the frame that `encodeFrame` writes for `sampleMsg`: it has the
markers at both ends, so the first true return is on its 15th byte exactly when bytes 4
and 12 are not the end marker. -/
theorem fifteen_byte_frame_witness :
    (bytesOf (encodeFrame hapcanCommon sampleMsg (fun _ => 0)).2 15).length = 15 ∧
    (bytesOf (encodeFrame hapcanCommon sampleMsg (fun _ => 0)).2 15)[0]?
      = some hapcanCommon.HAPCAN_START_BYTE ∧
    (bytesOf (encodeFrame hapcanCommon sampleMsg (fun _ => 0)).2 15)[14]?
      = some hapcanCommon.HAPCAN_END_BYTE ∧
    (firstTrueAt hapcanCommon (init (fun _ => 0))
        (bytesOf (encodeFrame hapcanCommon sampleMsg (fun _ => 0)).2 15) 14 ↔
      ((bytesOf (encodeFrame hapcanCommon sampleMsg (fun _ => 0)).2 15)[4]?
          ≠ some hapcanCommon.HAPCAN_END_BYTE ∧
        (bytesOf (encodeFrame hapcanCommon sampleMsg (fun _ => 0)).2 15)[12]?
          ≠ some hapcanCommon.HAPCAN_END_BYTE)) :=
  ⟨by decide, by decide, by decide,
    (fifteen_byte_frame hapcanCommon (fun _ => 0)
      (bytesOf (encodeFrame hapcanCommon sampleMsg (fun _ => 0)).2 15)
      (by decide) (by decide) (by decide)).1⟩

end HapcanParser

namespace HapcanParser

/-- From `WAIT`, a wire frame: true is returned on its last byte only, the parser is back
in `WAIT` and reports exactly the frame. -/
theorem wire_frame_run (c : Common) (p : HapcanParser) (hw : p.state = State.WAIT)
    (f : List Nat) (hf : WireFrame c f) :
    returns c p f = List.replicate (f.length - 1) false ++ [true] ∧
    (feed c p f).state = State.WAIT ∧
    (feed c p f).index = f.length ∧
    bytesOf (feed c p f).buffer f.length = f := by
  obtain ⟨hlen, h0, hlast, h4, h12⟩ := hf
  cases f with
  | nil => simp at hlen
  | cons x rest =>
    simp only [List.getElem?_cons_zero, Option.some.injEq] at h0
    subst h0
    simp only [List.length_cons, Nat.add_sub_cancel] at hlen hlast h4 h12 ⊢
    simp only [List.getElem?_cons_succ] at h4 h12
    have hk : rest.length = 4 ∨ rest.length = 12 ∨ rest.length = 14 := by omega
    have hlast2 : rest[rest.length - 1]? = some c.HAPCAN_END_BYTE := by
      have e : rest.length = (rest.length - 1) + 1 := by omega
      rw [e, List.getElem?_cons_succ] at hlast
      exact hlast
    have hfull : (c.HAPCAN_START_BYTE :: rest).take (rest.length + 1)
        = c.HAPCAN_START_BYTE :: rest :=
      List.take_of_length_le (by simp)
    obtain ⟨r1, r2, r3, r4⟩ := frame_at c p hw rest rest.length hk hlast2
      (by
        intro j hj hlt
        rcases hj with h | h
        · rw [h]; exact h4 (by omega)
        · rw [h]; exact h12 (by omega))
    rw [hfull] at r1 r2 r3 r4
    exact ⟨r1, r2, r3, r4⟩

/-- From `WAIT`, a concatenation of wire frames: true is returned on the last byte of
each frame and nowhere else, and the parser ends in `WAIT`. -/
theorem stream_run (c : Common) (frames : List (List Nat)) (p : HapcanParser)
    (hw : p.state = State.WAIT) (hwf : ∀ f, f ∈ frames → WireFrame c f) :
    returns c p frames.flatten
      = (frames.map (fun f => List.replicate (f.length - 1) false ++ [true])).flatten ∧
    (feed c p frames.flatten).state = State.WAIT := by
  induction frames generalizing p with
  | nil => exact ⟨rfl, hw⟩
  | cons f rest ih =>
    obtain ⟨r1, r2, _, _⟩ := wire_frame_run c p hw f (hwf f (List.mem_cons_self f rest))
    obtain ⟨i1, i2⟩ := ih (feed c p f) r2 (fun g hg => hwf g (List.mem_cons_of_mem f hg))
    simp only [List.flatten_cons, List.map_cons]
    rw [returns_append, feed_append, r1, i1]
    exact ⟨rfl, i2⟩

/-- C16: for every list of wire frames (5, 13 or 15 bytes each, start marker first and
end marker last, no end marker at offset 4 of a 13- or 15-byte frame nor at offset 12 of
a 15-byte frame), feeding their concatenation to a fresh parser makes `parseByte` return
true on the last byte of each frame and on no other byte; after the last byte of each
frame, `getFrameLength()` and `getFrame()` give exactly that frame. -/
theorem frames_in_order (c : Common) (buffer : Nat → Nat) (frames : List (List Nat))
    (hwf : ∀ f, f ∈ frames → WireFrame c f) :
    returns c (init buffer) frames.flatten
      = (frames.map (fun f => List.replicate (f.length - 1) false ++ [true])).flatten ∧
    (∀ (before : List (List Nat)) (f : List Nat) (after : List (List Nat)),
      frames = before ++ f :: after →
      getFrameLength (feed c (init buffer) (before.flatten ++ f)) = f.length ∧
      bytesOf (getFrame (feed c (init buffer) (before.flatten ++ f))) f.length = f) := by
  refine ⟨(stream_run c frames (init buffer) rfl hwf).1, ?_⟩
  intro before f after hsplit
  have hb : ∀ g, g ∈ before → WireFrame c g := by
    intro g hg
    exact hwf g (by rw [hsplit]; exact List.mem_append_left _ hg)
  have hf : WireFrame c f :=
    hwf f (by rw [hsplit]; exact List.mem_append_right _ (List.mem_cons_self f after))
  have hw := (stream_run c before (init buffer) rfl hb).2
  obtain ⟨_, _, r3, r4⟩ := wire_frame_run c _ hw f hf
  rw [feed_append]
  exact ⟨r3, r4⟩

/-- Instance of C16 on a 5-byte frame followed by a 13-byte frame whose body holds both
markers at offsets that close nothing. -/
theorem frames_in_order_witness :
    (∀ f, f ∈ [[0xAA, 0x10, 0x40, 0, 0xA5],
        [0xAA, 0xA5, 0xAA, 3, 4, 5, 6, 7, 8, 9, 10, 11, 0xA5]] →
      WireFrame hapcanCommon f) ∧
    returns hapcanCommon (init (fun _ => 0))
        [[0xAA, 0x10, 0x40, 0, 0xA5],
          [0xAA, 0xA5, 0xAA, 3, 4, 5, 6, 7, 8, 9, 10, 11, 0xA5]].flatten
      = [false, false, false, false, true, false, false, false, false, false, false,
          false, false, false, false, false, false, true] :=
  ⟨by decide,
    (frames_in_order hapcanCommon (fun _ => 0)
      [[0xAA, 0x10, 0x40, 0, 0xA5],
        [0xAA, 0xA5, 0xAA, 3, 4, 5, 6, 7, 8, 9, 10, 11, 0xA5]] (by decide)).1⟩

end HapcanParser

/-! ## Decoding and encoding again -/

/-- Byte 13 of an encoded frame as a plain sum, when the message data are bytes. -/
theorem encodeFrame_byte13_sum (c : Common) (M : twai_message_t) (outFrame : Nat → Nat)
    (hdata : ∀ i, i < 8 → M.data i < 256) :
    (encodeFrame c M outFrame).2 13
      = ((List.range' 1 12).map (encodeFrame c M outFrame).2).sum % 256 := by
  have hp := checksum_partial (encodeFrame c M outFrame).2
    (encodeFrame_byte_le c M outFrame hdata) 12 (by omega)
  have hloop : checksumLoop (encodeFrame c M outFrame).2
      = ((List.range' 1 12).map (encodeFrame c M outFrame).2).sum := hp.1
  rw [encodeFrame_byte13, hloop, u8]
  omega

/-- Masking with 0xF1 keeps bits 4..7 and bit 0. -/
theorem and_F1 (x : Nat) : x &&& 0xF1 = x / 16 % 16 * 16 + x % 2 := by
  have e : (0xF1 : Nat) = 0xF0 ||| 0x01 := by decide
  have m1 : x &&& 0xF0 = x / 16 % 16 * 16 := and_mask x 4 4
  have m2 : x &&& 0x01 = x / 1 % 2 * 1 := and_mask x 1 0
  rw [e, Nat.and_or_distrib_left, m1, m2,
    or_eq_add 4 (x / 16 % 16 * 16) (x / 1 % 2 * 1) (by omega) (by omega)]
  omega

/-- The bytes, other than the checksum, of the frame encoded from a decoded frame. -/
theorem reencode_bytes (c : Common) (F : Nat → Nat) (msg : twai_message_t)
    (outFrame : Nat → Nat) (h1 : F 1 < 256) (h3 : F 3 < 256) (h4 : F 4 < 256) :
    (encodeFrame c (decodeFrame F 15 msg).2 outFrame).2 0 = c.HAPCAN_START_BYTE ∧
    (encodeFrame c (decodeFrame F 15 msg).2 outFrame).2 1 = F 1 ∧
    (encodeFrame c (decodeFrame F 15 msg).2 outFrame).2 2 = F 2 / 16 % 16 * 16 + F 2 % 2 ∧
    (encodeFrame c (decodeFrame F 15 msg).2 outFrame).2 3 = F 3 ∧
    (encodeFrame c (decodeFrame F 15 msg).2 outFrame).2 4 = F 4 ∧
    (∀ i, i < 8 → (encodeFrame c (decodeFrame F 15 msg).2 outFrame).2 (5 + i) = F (5 + i)) ∧
    (encodeFrame c (decodeFrame F 15 msg).2 outFrame).2 14 = c.HAPCAN_END_BYTE := by
  have hid : (decodeFrame F 15 msg).2.identifier = decodeId F := by simp [decodeFrame]
  have hdlc : (decodeFrame F 15 msg).2.data_length_code = 8 := by simp [decodeFrame]
  have hdata : ∀ i, i < 8 → (decodeFrame F 15 msg).2.data i = F (5 + i) := by
    intro i hi
    simp only [decodeFrame, ne_eq, not_true_eq_false, if_false]
    rw [decodeData_apply, if_pos hi]
  have hdec := decodeId_eq F h1 h3 h4
  obtain ⟨b1, b2, b3, b4⟩ := encode_id_bytes (decodeId F)
  refine ⟨?_, ?_, ?_, ?_, ?_, ?_, ?_⟩
  · rw [encodeFrame_apply_lt _ _ _ 0 (by omega) (by omega)]
    simp
  · rw [encodeFrame_apply_lt _ _ _ 1 (by omega) (by omega), hid]
    norm_num
    rw [b1, hdec]
    omega
  · rw [encodeFrame_apply_lt _ _ _ 2 (by omega) (by omega), hid]
    norm_num
    rw [b2, hdec]
    omega
  · rw [encodeFrame_apply_lt _ _ _ 3 (by omega) (by omega), hid]
    norm_num
    rw [b3, hdec]
    omega
  · rw [encodeFrame_apply_lt _ _ _ 4 (by omega) (by omega), hid]
    norm_num
    rw [b4, hdec]
    omega
  · intro i hi
    have h5 : 5 ≤ 5 + i ∧ 5 + i < 13 := by omega
    have h14 : 5 + i ≠ 14 := by omega
    have hsub : 5 + i - 5 = i := by omega
    have hlt : i < 8 := hi
    rw [encodeFrame_apply_lt _ _ _ (5 + i) (by omega) (by omega)]
    simp only [h14, if_false, h5, and_self, if_true, hsub, hdlc, hlt]
    exact hdata i hi
  · rw [encodeFrame_apply_lt _ _ _ 14 (by omega) (by omega)]
    simp

/-- C17: for every 15-byte frame `F`, encoding the message that `decodeFrame` makes of `F`
gives `F` again (on bytes 0..14) if and only if `F[0]` is the start marker, `F[14]` is
the end marker, bits 1..3 of `F[2]` are zero and `F[13]` is the sum of `F[1..12]` modulo
256. In every case the new frame agrees with `F` on bytes 1 and 3..12 and on
`F[2] and 0xF1`. -/
theorem decode_reencode (c : Common) (F : Nat → Nat) (msg : twai_message_t)
    (outFrame : Nat → Nat) (hF : ∀ i, i < 15 → F i < 256) :
    ((∀ j, j < 15 → (encodeFrame c (decodeFrame F 15 msg).2 outFrame).2 j = F j) ↔
      (F 0 = c.HAPCAN_START_BYTE ∧ F 14 = c.HAPCAN_END_BYTE ∧ F 2 &&& 0x0E = 0 ∧
        F 13 = ((List.range' 1 12).map F).sum % 256)) ∧
    (encodeFrame c (decodeFrame F 15 msg).2 outFrame).2 1 = F 1 ∧
    (∀ j, 3 ≤ j → j ≤ 12 → (encodeFrame c (decodeFrame F 15 msg).2 outFrame).2 j = F j) ∧
    (encodeFrame c (decodeFrame F 15 msg).2 outFrame).2 2 &&& 0xF1 = F 2 &&& 0xF1 := by
  obtain ⟨r0, r1, r2, r3, r4, r5, r14⟩ := reencode_bytes c F msg outFrame
    (hF 1 (by omega)) (hF 3 (by omega)) (hF 4 (by omega))
  have hdata : ∀ i, i < 8 → (decodeFrame F 15 msg).2.data i < 256 := by
    intro i hi
    simp only [decodeFrame, ne_eq, not_true_eq_false, if_false]
    rw [decodeData_apply, if_pos hi]
    exact hF (5 + i) (by omega)
  have r13 := encodeFrame_byte13_sum c (decodeFrame F 15 msg).2 outFrame hdata
  have hE : F 2 &&& 0x0E = F 2 / 2 % 8 * 2 := and_mask (F 2) 3 1
  have hb2 := hF 2 (by omega)
  have hbody : ∀ j, 3 ≤ j → j ≤ 12 →
      (encodeFrame c (decodeFrame F 15 msg).2 outFrame).2 j = F j := by
    intro j h3 h12
    by_cases hj3 : j = 3
    · rw [hj3]; exact r3
    · by_cases hj4 : j = 4
      · rw [hj4]; exact r4
      · have e : j = 5 + (j - 5) := by omega
        rw [e]
        exact r5 (j - 5) (by omega)
  have hsum : (∀ j, 1 ≤ j → j ≤ 12 →
      (encodeFrame c (decodeFrame F 15 msg).2 outFrame).2 j = F j) →
      ((List.range' 1 12).map (encodeFrame c (decodeFrame F 15 msg).2 outFrame).2).sum
        = ((List.range' 1 12).map F).sum := by
    intro h
    congr 1
    apply List.map_congr_left
    intro j hj
    rw [List.mem_range'_1] at hj
    exact h j (by omega) (by omega)
  refine ⟨⟨?_, ?_⟩, r1, hbody, ?_⟩
  · intro h
    have h2 := h 2 (by omega)
    rw [r2] at h2
    refine ⟨by rw [← h 0 (by omega)]; exact r0, by rw [← h 14 (by omega)]; exact r14, ?_, ?_⟩
    · rw [hE]; omega
    · rw [← h 13 (by omega), r13, hsum (fun j _ h12 => h j (by omega))]
  · rintro ⟨h0, h14, h2, h13⟩ j hj
    rw [hE] at h2
    have e2 : (encodeFrame c (decodeFrame F 15 msg).2 outFrame).2 2 = F 2 := by
      rw [r2]; omega
    have h112 : ∀ i, 1 ≤ i → i ≤ 12 →
        (encodeFrame c (decodeFrame F 15 msg).2 outFrame).2 i = F i := by
      intro i h1 h12
      by_cases hi1 : i = 1
      · rw [hi1]; exact r1
      · by_cases hi2 : i = 2
        · rw [hi2]; exact e2
        · exact hbody i (by omega) h12
    by_cases hj0 : j = 0
    · rw [hj0, h0]; exact r0
    · by_cases hj13 : j = 13
      · rw [hj13, r13, hsum h112, h13]
      · by_cases hj14 : j = 14
        · rw [hj14, h14]; exact r14
        · exact h112 j (by omega) (by omega)
  · rw [r2, and_F1, and_F1]
    omega

/-- Instance of C17 at `sampleFrame`, whose byte 2 is 0x3F: the frame encoded from its
decoding has byte 2 equal to 0x31, so it is not `sampleFrame` again, while byte 1 is
kept. -/
theorem decode_reencode_witness :
    (∀ i, i < 15 → sampleFrame i < 256) ∧
    (encodeFrame hapcanCommon (decodeFrame sampleFrame 15 sampleMsg).2 (fun _ => 0)).2 2
      = 0x31 ∧
    (encodeFrame hapcanCommon (decodeFrame sampleFrame 15 sampleMsg).2 (fun _ => 0)).2 1
      = sampleFrame 1 :=
  ⟨by decide, by decide,
    (decode_reencode hapcanCommon sampleFrame sampleMsg (fun _ => 0) (by decide)).2.1⟩

/-! ## Parser safety and independence from the past -/

namespace HapcanParser

/-- One call, `parseByte` or `reset`, keeps the index at most 15, and at least 1 in
`COLLECTING`. -/
theorem apply_bounds (c : Common) (p : HapcanParser) (op : Op)
    (h15 : p.index ≤ 15) (h1 : p.state = State.COLLECTING → 1 ≤ p.index) :
    (apply c p op).index ≤ 15 ∧
    ((apply c p op).state = State.COLLECTING → 1 ≤ (apply c p op).index) := by
  cases op with
  | reset => exact ⟨Nat.zero_le _, fun h => by cases h⟩
  | parseByte b =>
    show (parseByte c p b).2.index ≤ 15 ∧
      ((parseByte c p b).2.state = State.COLLECTING → 1 ≤ (parseByte c p b).2.index)
    cases hst : p.state with
    | WAIT =>
      rw [parseByte_wait c p b hst]
      split_ifs with hb
      · exact ⟨by show 1 ≤ 15; omega, fun _ => Nat.le_refl 1⟩
      · exact ⟨h15, h1⟩
    | COLLECTING =>
      rw [parseByte_collecting c p b hst (by omega)]
      split_ifs with ha hb
      · exact ⟨by show p.index + 1 ≤ 15; omega, fun h => by cases h⟩
      · exact ⟨Nat.zero_le _, fun h => by cases h⟩
      · exact ⟨by show p.index + 1 ≤ 15; omega, fun _ => by show 1 ≤ p.index + 1; omega⟩

/-- The bounds hold after every sequence of calls on a parser that satisfies them. -/
theorem run_bounds (c : Common) (ops : List Op) (p : HapcanParser)
    (h15 : p.index ≤ 15) (h1 : p.state = State.COLLECTING → 1 ≤ p.index) :
    (run c p ops).index ≤ 15 ∧
    ((run c p ops).state = State.COLLECTING → 1 ≤ (run c p ops).index) := by
  induction ops generalizing p with
  | nil => exact ⟨h15, h1⟩
  | cons op ops ih =>
    obtain ⟨a, b⟩ := apply_bounds c p op h15 h1
    exact ih (apply c p op) a b

/-- C18: in every state reached from a fresh parser by a sequence of `parseByte` and
`reset` calls, if the state is `COLLECTING` then `1 <= index <= 15`. So the index is at
most 15 when `buffer[index++]` is written and at most 16 after the increment, and the
branch taken in `COLLECTING` when `index < 16` fails is never entered. -/
theorem collecting_index_bounds (c : Common) (buffer : Nat → Nat) (ops : List Op) :
    ((run c (init buffer) ops).state = State.COLLECTING →
      1 ≤ (run c (init buffer) ops).index ∧ (run c (init buffer) ops).index ≤ 15) ∧
    (run c (init buffer) ops).index ≤ 15 ∧
    (run c (init buffer) ops).index + 1 ≤ 16 ∧
    ¬ ((run c (init buffer) ops).state = State.COLLECTING ∧
        ¬ (run c (init buffer) ops).index < 16) := by
  obtain ⟨a, b⟩ := run_bounds c ops (init buffer) (Nat.zero_le _) (fun h => by cases h)
  refine ⟨fun h => ⟨b h, a⟩, a, by omega, ?_⟩
  rintro ⟨_, h⟩
  omega

end HapcanParser

namespace HapcanParser

/-- Two parsers in the same state, with the same index and, in `COLLECTING`, the same
buffered bytes, answer a byte alike and remain so; when they return true they hold the
same frame. -/
theorem agree_step (c : Common) (p q : HapcanParser) (b : Nat)
    (hs : p.state = q.state) (hi : p.index = q.index)
    (hb : p.state = State.COLLECTING → bytesOf p.buffer p.index = bytesOf q.buffer q.index) :
    (parseByte c p b).1 = (parseByte c q b).1 ∧
    (parseByte c p b).2.state = (parseByte c q b).2.state ∧
    (parseByte c p b).2.index = (parseByte c q b).2.index ∧
    ((parseByte c p b).2.state = State.COLLECTING →
      bytesOf (parseByte c p b).2.buffer (parseByte c p b).2.index
        = bytesOf (parseByte c q b).2.buffer (parseByte c q b).2.index) ∧
    ((parseByte c p b).1 = true →
      bytesOf (parseByte c p b).2.buffer (parseByte c p b).2.index
        = bytesOf (parseByte c q b).2.buffer (parseByte c q b).2.index) := by
  cases hst : p.state with
  | WAIT =>
    have hq : q.state = State.WAIT := by rw [← hs]; exact hst
    rw [parseByte_wait c p b hst, parseByte_wait c q b hq]
    by_cases hstart : b = c.HAPCAN_START_BYTE
    · rw [if_pos hstart, if_pos hstart]
      refine ⟨rfl, rfl, rfl, fun _ => ?_, fun h => by cases h⟩
      show bytesOf (store p.buffer 0 b) (0 + 1) = bytesOf (store q.buffer 0 b) (0 + 1)
      rw [bytesOf_store_succ, bytesOf_store_succ]
      rfl
    · rw [if_neg hstart, if_neg hstart]
      refine ⟨rfl, hs, hi, fun h => ?_, fun h => by cases h⟩
      have h2 : p.state = State.COLLECTING := h
      rw [hst] at h2
      cases h2
  | COLLECTING =>
    have hq : q.state = State.COLLECTING := by rw [← hs]; exact hst
    have hbuf : bytesOf p.buffer p.index = bytesOf q.buffer p.index := by
      have h := hb hst
      rw [← hi] at h
      exact h
    have hstore : bytesOf (store p.buffer p.index b) (p.index + 1)
        = bytesOf (store q.buffer p.index b) (p.index + 1) := by
      rw [bytesOf_store_succ, bytesOf_store_succ, hbuf]
    by_cases h16 : p.index < 16
    · rw [parseByte_collecting c p b hst h16, parseByte_collecting c q b hq (by omega), ← hi]
      by_cases ha : (p.index = 4 ∨ p.index = 12 ∨ p.index = 14) ∧ b = c.HAPCAN_END_BYTE
      · rw [if_pos ha, if_pos ha]
        exact ⟨rfl, rfl, rfl, fun h => (by cases h), fun _ => hstore⟩
      · rw [if_neg ha, if_neg ha]
        by_cases h15 : p.index = 15
        · rw [if_pos h15, if_pos h15]
          exact ⟨rfl, rfl, rfl, fun h => (by cases h), fun h => by cases h⟩
        · rw [if_neg h15, if_neg h15]
          exact ⟨rfl, rfl, rfl, fun _ => hstore, fun h => by cases h⟩
    · rw [parseByte_full c p b hst h16, parseByte_full c q b hq (by omega)]
      exact ⟨rfl, rfl, rfl, fun h => (by cases h), fun h => by cases h⟩

/-- Parsers that agree as in `agree_step` agree after any input, and return the same
values on it. -/
theorem agree_feed (c : Common) (s : List Nat) (p q : HapcanParser)
    (hs : p.state = q.state) (hi : p.index = q.index)
    (hb : p.state = State.COLLECTING → bytesOf p.buffer p.index = bytesOf q.buffer q.index) :
    returns c p s = returns c q s ∧
    (feed c p s).state = (feed c q s).state ∧
    (feed c p s).index = (feed c q s).index ∧
    ((feed c p s).state = State.COLLECTING →
      bytesOf (feed c p s).buffer (feed c p s).index
        = bytesOf (feed c q s).buffer (feed c q s).index) := by
  induction s generalizing p q with
  | nil => exact ⟨rfl, hs, hi, hb⟩
  | cons b s ih =>
    obtain ⟨a1, a2, a3, a4, _⟩ := agree_step c p q b hs hi hb
    obtain ⟨i1, i2, i3, i4⟩ := ih (parseByte c p b).2 (parseByte c q b).2 a2 a3 a4
    rw [returns, returns, feed_cons, feed_cons, a1, i1]
    exact ⟨rfl, i2, i3, i4⟩

/-- C19: what a parser does after `reset()` does not depend on what it received before.
For any two parsers, whatever their state, index and buffer contents, after `reset()` on
both and the same bytes fed to both, every call of `parseByte` returns the same value on
both, and whenever it returns true both report the same frame length and the same frame
bytes `buffer[0..length)`. -/
theorem reset_forgets (c : Common) (p q : HapcanParser) (s : List Nat) :
    returns c (reset p) s = returns c (reset q) s ∧
    (∀ (s1 : List Nat) (b : Nat) (s2 : List Nat), s = s1 ++ b :: s2 →
      (parseByte c (feed c (reset p) s1) b).1 = (parseByte c (feed c (reset q) s1) b).1 ∧
      ((parseByte c (feed c (reset p) s1) b).1 = true →
        getFrameLength (parseByte c (feed c (reset p) s1) b).2
          = getFrameLength (parseByte c (feed c (reset q) s1) b).2 ∧
        bytesOf (getFrame (parseByte c (feed c (reset p) s1) b).2)
            (getFrameLength (parseByte c (feed c (reset p) s1) b).2)
          = bytesOf (getFrame (parseByte c (feed c (reset q) s1) b).2)
            (getFrameLength (parseByte c (feed c (reset q) s1) b).2))) := by
  have h0 : (reset p).state = State.COLLECTING →
      bytesOf (reset p).buffer (reset p).index = bytesOf (reset q).buffer (reset q).index :=
    fun h => by cases h
  refine ⟨(agree_feed c s (reset p) (reset q) rfl rfl h0).1, ?_⟩
  intro s1 b s2 _
  obtain ⟨_, f2, f3, f4⟩ := agree_feed c s1 (reset p) (reset q) rfl rfl h0
  obtain ⟨a1, _, a3, _, a5⟩ := agree_step c _ _ b f2 f3 f4
  exact ⟨a1, fun ht => ⟨a3, a5 ht⟩⟩

end HapcanParser

end Hapcan
